import Mathlib

/-!
Shallow embedding of the ChessBet contract (src/contracts/ChessBet.sol) and of
the orderbook engine reimplementation (src/src/lib/chess/ChessEngine.ts,
OrderbookManager).  Addresses, ids, amounts and enum codes are Nat; Solidity
mappings are functions with pointwise update; a reverting call is an
`Except.error` and the caller state is kept unchanged (`run`).  Game ids and
order ids in the contract are keccak hashes; the embedding replaces them with a
fresh-id counter (`nextId`), matching the uniqueness the hash provides.
Token transfers are external: a transfer-in is assumed to succeed (a failure
reverts the call, leaving no state change, which `run` already models), and the
transfer in `claimPayout` carries an explicit success flag.
-/

namespace ChessBet

def USDC_UNIT : Nat := 1000000

def MAX_MOVES : Nat := 200

def MAX_MOVE_BYTES : Nat := 16

/-- Game struct: status 0 = waiting, 1 = active, 2 = finished; result 0 = white
wins, 1 = black wins, 2 = draw; bettingTier 0 = Low, 1 = Medium, 2 = Unlimited. -/
structure Game where
  id : Nat
  whitePlayer : Nat
  blackPlayer : Nat
  fen : String
  pgn : String
  status : Nat
  result : Nat
  bettingTier : Nat
  timeControl : Nat
  createdAt : Nat
  startedAt : Nat
  finishedAt : Nat
  moveCount : Nat
  deriving DecidableEq, Repr

/-- GameBet struct: the struct declaration documents status 0 = pending,
1 = won, 2 = lost, 3 = refunded. -/
structure GameBet where
  gameId : Nat
  player : Nat
  amount : Nat
  status : Nat
  createdAt : Nat
  resolvedAt : Nat
  payout : Nat
  deriving DecidableEq, Repr

/-- Documented GameBet status codes (ChessBet.sol line 90). -/
def BET_STATUS_PENDING : Nat := 0

def BET_STATUS_WON : Nat := 1

def BET_STATUS_LOST : Nat := 2

def BET_STATUS_REFUNDED : Nat := 3

structure BettingPool where
  gameId : Nat
  totalAmount : Nat
  houseFee : Nat
  resolved : Bool
  winner : Nat
  deriving DecidableEq, Repr

/-- Order struct: status 0 = open, 1 = part-filled, 2 = filled, 3 = cancelled. -/
structure Order where
  id : Nat
  player : Nat
  side : Nat
  amount : Nat
  tickAmount : Nat
  timeControl : Nat
  createdAt : Nat
  filledAmount : Nat
  status : Nat
  deriving DecidableEq, Repr

structure OrderbookLevel where
  tickAmount : Nat
  orderIds : List Nat
  totalAmount : Nat
  deriving DecidableEq, Repr

def zeroGame : Game := ⟨0, 0, 0, "", "", 0, 0, 0, 0, 0, 0, 0, 0⟩

def zeroPool : BettingPool := ⟨0, 0, 0, false, 0⟩

def zeroOrder : Order := ⟨0, 0, 0, 0, 0, 0, 0, 0, 0⟩

def zeroLevel : OrderbookLevel := ⟨0, [], 0⟩

/-- Contract storage.  `levels` is keyed by (timeControl, side, tickAmount). -/
structure CState where
  games : Nat → Game
  bettingPools : Nat → BettingPool
  gameBets : Nat → List GameBet
  pendingPayouts : Nat → Nat
  houseFeePercentage : Nat
  lowTierAmount : Nat
  mediumTierAmount : Nat
  orders : Nat → Order
  levels : Nat × Nat × Nat → OrderbookLevel
  playerOrders : Nat → List Nat
  resultSubmitted : Nat → Nat → Bool
  resultValue : Nat → Nat → Nat
  resultResolved : Nat → Bool
  resultFinal : Nat → Nat
  playerGameIndex : Nat → List Nat
  playerSeenGame : Nat → Nat → Bool
  tickSize : Nat
  tolerancePercentage : Nat
  tokenFeeBalance : Nat
  owner : Nat
  paused : Bool
  time : Nat
  nextId : Nat

/-- Pointwise map update. -/
def upd {K V : Type} [DecidableEq K] (f : K → V) (k : K) (v : V) : K → V :=
  fun x => if x = k then v else f x

/-- Pointwise update of a two-key map. -/
def upd2 {V : Type} (f : Nat → Nat → V) (k1 k2 : Nat) (v : V) : Nat → Nat → V :=
  fun a b => if a = k1 ∧ b = k2 then v else f a b

def startFen : String := "rnbqkbnr/pppppppp/8/8/8/8/PPPPPPPP/RNBQKBNR w KQkq - 0 1"

/-- Deployment state: constructor values of ChessBet.sol, id counter at 1. -/
def genesis (owner time : Nat) : CState where
  games := fun _ => zeroGame
  bettingPools := fun _ => zeroPool
  gameBets := fun _ => []
  pendingPayouts := fun _ => 0
  houseFeePercentage := 500
  lowTierAmount := 5 * USDC_UNIT
  mediumTierAmount := 50 * USDC_UNIT
  orders := fun _ => zeroOrder
  levels := fun _ => zeroLevel
  playerOrders := fun _ => []
  resultSubmitted := fun _ _ => false
  resultValue := fun _ _ => 0
  resultResolved := fun _ => false
  resultFinal := fun _ => 0
  playerGameIndex := fun _ => []
  playerSeenGame := fun _ _ => false
  tickSize := 10 * USDC_UNIT
  tolerancePercentage := 5
  tokenFeeBalance := 0
  owner := owner
  paused := false
  time := time
  nextId := 1

/-- _isValidBetAmount. -/
def isValidBetAmount (s : CState) (bettingTier amount : Nat) : Bool :=
  if bettingTier = 0 then amount == s.lowTierAmount
  else if bettingTier = 1 then amount == s.mediumTierAmount
  else if bettingTier = 2 then decide (USDC_UNIT ≤ amount)
  else false

/-- _indexPlayerGame. -/
def indexPlayerGame (s : CState) (player gameId : Nat) : CState :=
  if s.playerSeenGame player gameId then s
  else { s with playerSeenGame := upd2 s.playerSeenGame player gameId true,
                playerGameIndex := upd s.playerGameIndex player
                  (s.playerGameIndex player ++ [gameId]) }

/-- _creditFee. -/
def creditFee (s : CState) (amount : Nat) : CState :=
  { s with tokenFeeBalance := s.tokenFeeBalance + amount }

/-- _resolveBets: draw refunds both stakes with no fee; a decisive result
credits the house fee and pays the net pool to the winner.  The winner bet is
written with status 0 and the loser bet with status 1, exactly as the source
does (lines 432 and 446). -/
def resolveBets (s : CState) (gameId result : Nat) : Except String CState :=
  let pool := s.bettingPools gameId
  if pool.resolved then .error "Bets already resolved"
  else
    let bets := s.gameBets gameId
    if bets.length ≠ 2 then .error "Must have exactly 2 bets"
    else if result = 2 then
      let bets2 := bets.map fun b =>
        { b with status := 3, payout := b.amount, resolvedAt := s.time }
      let pending2 := bets.foldl
        (fun p b => upd p b.player (p b.player + b.amount)) s.pendingPayouts
      .ok { s with
        gameBets := upd s.gameBets gameId bets2,
        pendingPayouts := pending2,
        bettingPools := upd s.bettingPools gameId
          { pool with resolved := true, winner := 0, houseFee := 0 } }
    else
      let winner := if result = 0 then (s.games gameId).whitePlayer
                    else (s.games gameId).blackPlayer
      let fee := pool.houseFee
      let netPool := pool.totalAmount - fee
      let bets2 := bets.map fun b =>
        if b.player = winner then
          { b with status := 0, payout := netPool, resolvedAt := s.time }
        else
          { b with status := 1, payout := 0, resolvedAt := s.time }
      let pending2 := bets.foldl
        (fun p b => if b.player = winner then upd p b.player (p b.player + netPool) else p)
        s.pendingPayouts
      .ok { s with
        gameBets := upd s.gameBets gameId bets2,
        pendingPayouts := pending2,
        tokenFeeBalance := s.tokenFeeBalance + fee,
        bettingPools := upd s.bettingPools gameId
          { pool with resolved := true, winner := winner } }

/-- createGame. -/
def createGame (s : CState) (caller blackPlayer timeControl bettingTier : Nat) :
    Except String CState :=
  if s.paused then .error "Pausable: paused"
  else if blackPlayer = 0 then .error "Invalid black player"
  else if blackPlayer = caller then .error "Cannot play against yourself"
  else if ¬ bettingTier ≤ 2 then .error "Invalid betting tier"
  else
    let gameId := s.nextId
    .ok { s with
      nextId := s.nextId + 1,
      games := upd s.games gameId
        { id := gameId, whitePlayer := caller, blackPlayer := blackPlayer,
          fen := startFen, pgn := "", status := 0, result := 0,
          bettingTier := bettingTier, timeControl := timeControl,
          createdAt := s.time, startedAt := 0, finishedAt := 0, moveCount := 0 },
      bettingPools := upd s.bettingPools gameId
        { gameId := gameId, totalAmount := 0, houseFee := 0,
          resolved := false, winner := 0 } }

/-- startGame. -/
def startGame (s : CState) (caller gameId : Nat) : Except String CState :=
  if (s.games gameId).id = 0 then .error "Game does not exist"
  else
    let game := s.games gameId
    if ¬ (caller = game.whitePlayer ∨ caller = game.blackPlayer) then
      .error "Not a game player"
    else if game.status ≠ 0 then .error "Game not in waiting status"
    else
      .ok { s with
        games := upd s.games gameId
          ({ game with status := 1, startedAt := s.time }) }

/-- makeMove: the move length is capped with a revert, the move count cap is
silent — once `moveCount` reaches MAX_MOVES the call still succeeds but the
PGN and the counter are left untouched. -/
def makeMove (s : CState) (caller gameId : Nat) (move : String) :
    Except String CState :=
  if (s.games gameId).id = 0 then .error "Game does not exist"
  else
    let game := s.games gameId
    if ¬ (caller = game.whitePlayer ∨ caller = game.blackPlayer) then
      .error "Not a game player"
    else if game.status ≠ 1 then .error "Game not active"
    else if ¬ move.length ≤ MAX_MOVE_BYTES then .error "move too long"
    else if game.moveCount < MAX_MOVES then
      let pgn2 := if 0 < game.pgn.length then game.pgn ++ " " ++ move else move
      .ok { s with
        games := upd s.games gameId
          ({ game with pgn := pgn2, moveCount := game.moveCount + 1 }) }
    else .ok s

/-- submitGameResult: records the vote, and resolves when the other player has
submitted the same result. -/
def submitGameResult (s : CState) (caller gameId result : Nat) :
    Except String CState :=
  if (s.games gameId).id = 0 then .error "Game does not exist"
  else
    let game := s.games gameId
    if ¬ (caller = game.whitePlayer ∨ caller = game.blackPlayer) then
      .error "Not a game player"
    else if ¬ result ≤ 2 then .error "Invalid result"
    else if game.status ≠ 1 then .error "Game not active"
    else if s.resultResolved gameId then .error "Game already resolved"
    else
      let s1 := { s with
        resultSubmitted := upd2 s.resultSubmitted gameId caller true,
        resultValue := upd2 s.resultValue gameId caller result }
      let otherPlayer := if caller = game.whitePlayer then game.blackPlayer
                         else game.whitePlayer
      if s1.resultSubmitted gameId otherPlayer ∧
         s1.resultValue gameId otherPlayer = result then
        let s2 := { s1 with
          resultResolved := upd s1.resultResolved gameId true,
          resultFinal := upd s1.resultFinal gameId result,
          games := upd s1.games gameId
            { game with status := 2, result := result, finishedAt := s.time } }
        resolveBets s2 gameId result
      else .ok s1

/-- resolveDisputedGame: the admin override, requiring both votes present. -/
def resolveDisputedGame (s : CState) (caller gameId result : Nat) :
    Except String CState :=
  if caller ≠ s.owner then .error "Ownable: caller is not the owner"
  else if (s.games gameId).id = 0 then .error "Game does not exist"
  else if ¬ result ≤ 2 then .error "Invalid result"
  else if s.resultResolved gameId then .error "Game already resolved"
  else
    let game := s.games gameId
    if game.status ≠ 1 then .error "Game not active"
    else if ¬ (s.resultSubmitted gameId game.whitePlayer ∧
               s.resultSubmitted gameId game.blackPlayer) then
      .error "Both players must submit results first"
    else
      let s2 := { s with
        resultResolved := upd s.resultResolved gameId true,
        resultFinal := upd s.resultFinal gameId result,
        games := upd s.games gameId
          { game with status := 2, result := result, finishedAt := s.time } }
      resolveBets s2 gameId result

/-- placeBet. -/
def placeBet (s : CState) (caller gameId amount : Nat) : Except String CState :=
  if (s.games gameId).id = 0 then .error "Game does not exist"
  else if (s.games gameId).status = 2 then .error "Game already finished"
  else if s.paused then .error "Pausable: paused"
  else
    let game := s.games gameId
    if game.status ≠ 0 then .error "Game already started or finished"
    else if ¬ (caller = game.whitePlayer ∨ caller = game.blackPlayer) then
      .error "Only game players can bet"
    else if ¬ isValidBetAmount s game.bettingTier amount then
      .error "Invalid bet amount for tier"
    else if (s.gameBets gameId).any (fun b => b.player == caller) then
      .error "Player already bet"
    else
      let newBet : GameBet :=
        { gameId := gameId, player := caller, amount := amount, status := 0,
          createdAt := s.time, resolvedAt := 0, payout := 0 }
      let bets2 := s.gameBets gameId ++ [newBet]
      let s1 := { s with gameBets := upd s.gameBets gameId bets2 }
      let s2 := indexPlayerGame s1 caller gameId
      let pool := s2.bettingPools gameId
      let total2 := pool.totalAmount + amount
      let s3 := { s2 with
        bettingPools := upd s2.bettingPools gameId
          { pool with totalAmount := total2,
                      houseFee := total2 * s.houseFeePercentage / 10000 } }
      if bets2.length = 2 then
        .ok { s3 with
          games := upd s3.games gameId
            ({ game with status := 1, startedAt := s.time }) }
      else .ok s3

/-- External-call trace of one claimPayout execution. -/
inductive XEffect where
  | zeroPending (player : Nat)
  | transferOut (payee amount : Nat)
  deriving DecidableEq, Repr

/-- State the external token transfer of claimPayout is invoked against: the
balance is already zeroed. -/
def claimZeroedState (s : CState) (caller : Nat) : CState :=
  { s with pendingPayouts := upd s.pendingPayouts caller 0 }

/-- Effects of claimPayout in execution order: the zeroing write strictly
precedes the external transfer (checks-effects-interactions). -/
def claimPayoutTrace (s : CState) (caller : Nat) : List XEffect :=
  if s.pendingPayouts caller = 0 then []
  else [XEffect.zeroPending caller,
        XEffect.transferOut caller (s.pendingPayouts caller)]

/-- claimPayout: `transferOk` is the outcome of the external token transfer; a
failing transfer reverts the whole call. -/
def claimPayout (s : CState) (caller : Nat) (transferOk : Bool) :
    Except String CState :=
  let amount := s.pendingPayouts caller
  if amount = 0 then .error "No pending payout"
  else
    let s1 := claimZeroedState s caller
    if transferOk then .ok s1 else .error "SafeERC20: transfer failed"

/-- withdrawTokenFees. -/
def withdrawTokenFees (s : CState) (caller : Nat) : Except String CState :=
  if caller ≠ s.owner then .error "Ownable: caller is not the owner"
  else if s.tokenFeeBalance = 0 then .error "No token fees to withdraw"
  else .ok { s with tokenFeeBalance := 0 }

/-- setHouseFeePercentage. -/
def setHouseFeePercentage (s : CState) (caller value : Nat) :
    Except String CState :=
  if caller ≠ s.owner then .error "Ownable: caller is not the owner"
  else if ¬ value ≤ 1000 then .error "Fee too high"
  else .ok { s with houseFeePercentage := value }

/-- setBettingTierAmounts. -/
def setBettingTierAmounts (s : CState) (caller lowAmount mediumAmount : Nat) :
    Except String CState :=
  if caller ≠ s.owner then .error "Ownable: caller is not the owner"
  else if lowAmount = 0 then .error "Low tier amount must be positive"
  else if ¬ lowAmount < mediumAmount then
    .error "Medium tier must be higher than low tier"
  else if lowAmount < s.tickSize then .error "Low tier must be at least tick size"
  else if mediumAmount < s.tickSize then
    .error "Medium tier must be at least tick size"
  else .ok { s with lowTierAmount := lowAmount, mediumTierAmount := mediumAmount }

/-- pause. -/
def pause (s : CState) (caller : Nat) : Except String CState :=
  if caller ≠ s.owner then .error "Ownable: caller is not the owner"
  else if s.paused then .error "Pausable: paused"
  else .ok { s with paused := true }

/-- unpause. -/
def unpause (s : CState) (caller : Nat) : Except String CState :=
  if caller ≠ s.owner then .error "Ownable: caller is not the owner"
  else if ¬ s.paused then .error "Pausable: not paused"
  else .ok { s with paused := false }

/-- pauseGame: the emergency unwind.  With two bets it forces a draw
resolution; otherwise it refunds whatever pending bets exist. -/
def pauseGame (s : CState) (caller gameId : Nat) : Except String CState :=
  if caller ≠ s.owner then .error "Ownable: caller is not the owner"
  else if (s.games gameId).id = 0 then .error "Game does not exist"
  else
    let g := s.games gameId
    if g.status = 2 then .error "Already finished"
    else
      let s1 := { s with games := upd s.games gameId { g with status := 2 } }
      let bets := s1.gameBets gameId
      let afterPool : Except String CState :=
        if bets.length = 2 then resolveBets s1 gameId 2
        else
          let bets2 := bets.map fun b =>
            if b.status = 0 then
              { b with status := 3, payout := b.amount, resolvedAt := s.time }
            else b
          let pending2 := bets.foldl
            (fun p b => if b.status = 0 then upd p b.player (p b.player + b.amount) else p)
            s1.pendingPayouts
          let pool := s1.bettingPools gameId
          .ok { s1 with
            gameBets := upd s1.gameBets gameId bets2,
            pendingPayouts := pending2,
            bettingPools := upd s1.bettingPools gameId
              { pool with resolved := true, winner := 0, houseFee := 0 } }
      match afterPool with
      | .error e => .error e
      | .ok s2 =>
        .ok { s2 with
          games := upd s2.games gameId
            { s2.games gameId with result := 2, finishedAt := s.time },
          resultResolved := upd s2.resultResolved gameId true,
          resultFinal := upd s2.resultFinal gameId 2 }

/-- _quantizeAmount. -/
def quantize (s : CState) (amount : Nat) : Nat :=
  amount / s.tickSize * s.tickSize

/-- Swap-and-pop removal of the head of a level queue:
`orderIds[0] = orderIds[length-1]; orderIds.pop()`. -/
def swapPopHead (l : List Nat) : List Nat :=
  match l with
  | [] => []
  | _ :: t =>
    match t.getLast? with
    | none => []
    | some lst => lst :: t.dropLast

/-- Swap-and-pop removal of the first occurrence of `x`, as the cancelOrder
scan does: overwrite the found slot with the last entry and pop. -/
def removeSwap (l : List Nat) (x : Nat) : List Nat :=
  match l.findIdx? (fun y => y == x) with
  | none => l
  | some i =>
    match l.getLast? with
    | none => l
    | some lst => (l.set i lst).dropLast

/-- _recordBet. -/
def recordBet (s : CState) (gameId player amount : Nat) : CState :=
  let newBet : GameBet :=
    { gameId := gameId, player := player, amount := amount, status := 0,
      createdAt := s.time, resolvedAt := 0, payout := 0 }
  let s1 := { s with gameBets := upd s.gameBets gameId (s.gameBets gameId ++ [newBet]) }
  let s2 := indexPlayerGame s1 player gameId
  let pool := s2.bettingPools gameId
  let total2 := pool.totalAmount + amount
  { s2 with
    bettingPools := upd s2.bettingPools gameId
      { pool with totalAmount := total2,
                  houseFee := total2 * s.houseFeePercentage / 10000 } }

/-- _createMatch: creates the game and both bets for a fill of `amount`
between orders `aId` (the incoming order) and `bId`, and auto-starts it. -/
def createMatch (s : CState) (aId bId amount : Nat) : CState :=
  let a := s.orders aId
  let b := s.orders bId
  let whiteP := if a.side = 0 then a.player else b.player
  let blackP := if a.side = 1 then a.player else b.player
  let gid := s.nextId
  let s1 := { s with
    nextId := s.nextId + 1,
    games := upd s.games gid
      { id := gid, whitePlayer := whiteP, blackPlayer := blackP,
        fen := startFen, pgn := "", status := 0, result := 0, bettingTier := 2,
        timeControl := a.timeControl, createdAt := s.time, startedAt := 0,
        finishedAt := 0, moveCount := 0 },
    bettingPools := upd s.bettingPools gid
      { gameId := gid, totalAmount := 0, houseFee := 0,
        resolved := false, winner := 0 } }
  let s2 := recordBet s1 gid whiteP amount
  let s3 := recordBet s2 gid blackP amount
  { s3 with
    games := upd s3.games gid
      ({ s3.games gid with status := 1, startedAt := s.time }) }

/-- Loop of _matchAtLevel: repeatedly consume the head of the queue at `key`.
The fuel is structural; each iteration strictly decreases
queue length + remaining, so any fuel above that bound is exact. -/
def matchLoop (oid : Nat) (key : Nat × Nat × Nat) :
    Nat → CState → Nat → CState
  | 0, s, _ => s
  | fuel + 1, s, remaining =>
    if remaining = 0 then s
    else
      match (s.levels key).orderIds with
      | [] => s
      | hd :: _ =>
        let ho := s.orders hd
        let oppRem := ho.amount - ho.filledAmount
        let matchAmount := min remaining oppRem
        if matchAmount = 0 then
          if oppRem = 0 then
            let lvl := s.levels key
            let s1 := { s with
              orders := upd s.orders hd { ho with status := 2 },
              levels := upd s.levels key
                { lvl with orderIds := swapPopHead lvl.orderIds } }
            matchLoop oid key fuel s1 remaining
          else s
        else
          let s1 := createMatch s oid hd matchAmount
          let o1 := s1.orders oid
          let s2 := { s1 with
            orders := upd s1.orders oid
              { o1 with filledAmount := o1.filledAmount + matchAmount } }
          let h2 := s2.orders hd
          let s3 := { s2 with
            orders := upd s2.orders hd
              { h2 with filledAmount := h2.filledAmount + matchAmount } }
          let lvl3 := s3.levels key
          let s4 := { s3 with
            levels := upd s3.levels key
              { lvl3 with totalAmount := lvl3.totalAmount - matchAmount } }
          let remaining2 := remaining - matchAmount
          let h4 := s4.orders hd
          if h4.amount ≤ h4.filledAmount then
            let lvl4 := s4.levels key
            let s5 := { s4 with
              orders := upd s4.orders hd { h4 with status := 2 },
              levels := upd s4.levels key
                { lvl4 with orderIds := swapPopHead lvl4.orderIds } }
            matchLoop oid key fuel s5 remaining2
          else matchLoop oid key fuel s4 remaining2

/-- _matchAtLevel: clamp to the order remaining, run the loop, then update the
incoming order status. -/
def matchAtLevel (s : CState) (oid : Nat) (key : Nat × Nat × Nat)
    (maxAmount : Nat) : CState :=
  let o := s.orders oid
  let orderRemaining := o.amount - o.filledAmount
  let remaining := min maxAmount orderRemaining
  let fuel := (s.levels key).orderIds.length + remaining + 1
  let s1 := matchLoop oid key fuel s remaining
  let o1 := s1.orders oid
  if o1.amount ≤ o1.filledAmount then
    { s1 with orders := upd s1.orders oid { o1 with status := 2 } }
  else if 0 < o1.filledAmount then
    { s1 with orders := upd s1.orders oid { o1 with status := 1 } }
  else s1

/-- Ascending loop of _matchNearestLevels: from tickAmount + tickSize up to the
tolerance ceiling; returns the state and the remaining variable.  Fuel bounds
the iterations (tick grows by `ts` per round, so `maxTick + 1` is enough for
any positive `ts`; the contract fixes tickSize at 10 USDC). -/
def ascendLoop (oid tc opp ts maxTick : Nat) :
    Nat → CState → Nat → Nat → CState × Nat
  | 0, s, _, remaining => (s, remaining)
  | fuel + 1, s, tick, remaining =>
    if tick ≤ maxTick ∧ 0 < remaining then
      if 0 < (s.levels (tc, opp, tick)).orderIds.length then
        let s1 := matchAtLevel s oid (tc, opp, tick) remaining
        let remaining2 := (s1.orders oid).amount - (s1.orders oid).filledAmount
        ascendLoop oid tc opp ts maxTick fuel s1 (tick + ts) remaining2
      else ascendLoop oid tc opp ts maxTick fuel s (tick + ts) remaining
    else (s, remaining)

/-- Descending loop of _matchNearestLevels: from tickAmount − tickSize down to
the tolerance floor, breaking before any underflow past zero. -/
def descendLoop (oid tc opp ts minTick : Nat) :
    Nat → CState → Nat → Nat → CState
  | 0, s, _, _ => s
  | fuel + 1, s, tick, remaining =>
    if minTick ≤ tick ∧ 0 < remaining then
      if 0 < (s.levels (tc, opp, tick)).orderIds.length then
        let s1 := matchAtLevel s oid (tc, opp, tick) remaining
        let remaining2 := (s1.orders oid).amount - (s1.orders oid).filledAmount
        if tick < ts then s1
        else descendLoop oid tc opp ts minTick fuel s1 (tick - ts) remaining2
      else
        if tick < ts then s
        else descendLoop oid tc opp ts minTick fuel s (tick - ts) remaining
    else s

/-- _matchNearestLevels. -/
def matchNearestLevels (s : CState) (oid opp maxAmount : Nat) : CState :=
  let o := s.orders oid
  let ts := s.tickSize
  let tol := o.tickAmount * s.tolerancePercentage / 100
  let minTick := o.tickAmount - tol
  let maxTick := o.tickAmount + tol
  let p := ascendLoop oid o.timeControl opp ts maxTick (maxTick + 1) s
    (o.tickAmount + ts) maxAmount
  if ts ≤ o.tickAmount then
    descendLoop oid o.timeControl opp ts minTick (o.tickAmount + 1) p.1
      (o.tickAmount - ts) p.2
  else p.1

/-- _attemptMatch: exact level first (entered on a positive level total), then
the tolerance band while the order is still open or part-filled. -/
def attemptMatch (s : CState) (oid : Nat) : CState :=
  let o := s.orders oid
  if o.status ≠ 0 then s
  else
    let opp := if o.side = 0 then 1 else 0
    let exactKey := (o.timeControl, opp, o.tickAmount)
    let s1 :=
      if 0 < (s.levels exactKey).totalAmount then
        matchAtLevel s oid exactKey (o.amount - o.filledAmount)
      else s
    let o1 := s1.orders oid
    if o1.status = 0 ∨ o1.status = 1 then
      let remainingAfter := o1.amount - o1.filledAmount
      if 0 < remainingAfter then matchNearestLevels s1 oid opp remainingAfter
      else s1
    else s1

/-- placeOrder: quantize, escrow, insert into the level, then try to match. -/
def placeOrder (s : CState) (caller side timeControl amount : Nat) :
    Except String CState :=
  if s.paused then .error "Pausable: paused"
  else if ¬ side ≤ 1 then .error "Invalid side"
  else if amount < s.tickSize then .error "Amount below minimum tick size"
  else
    let q := quantize s amount
    if q = 0 then .error "Amount too small after quantization"
    else
      let oid := s.nextId
      let newOrder : Order :=
        { id := oid, player := caller, side := side, amount := q,
          tickAmount := q, timeControl := timeControl, createdAt := s.time,
          filledAmount := 0, status := 0 }
      let key := (timeControl, side, q)
      let lvl := s.levels key
      let lvl2 : OrderbookLevel :=
        { tickAmount := if lvl.tickAmount = 0 then q else lvl.tickAmount,
          orderIds := lvl.orderIds ++ [oid],
          totalAmount := lvl.totalAmount + q }
      let s1 := { s with
        nextId := s.nextId + 1,
        orders := upd s.orders oid newOrder,
        playerOrders := upd s.playerOrders caller (s.playerOrders caller ++ [oid]),
        levels := upd s.levels key lvl2 }
      .ok (attemptMatch s1 oid)

/-- cancelOrder: mark cancelled, swap-pop the id out of its level, decrement
the aggregate by the current unfilled remainder and refund it. -/
def cancelOrder (s : CState) (caller oid : Nat) : Except String CState :=
  let o := s.orders oid
  if o.player ≠ caller then .error "Not order owner"
  else if ¬ (o.status = 0 ∨ o.status = 1) then
    .error "Cannot cancel filled or cancelled order"
  else
    let key := (o.timeControl, o.side, o.tickAmount)
    let lvl := s.levels key
    let lvl2 : OrderbookLevel :=
      { lvl with orderIds := removeSwap lvl.orderIds oid,
                 totalAmount := lvl.totalAmount - (o.amount - o.filledAmount) }
    .ok { s with
      orders := upd s.orders oid { o with status := 3 },
      levels := upd s.levels key lvl2 }

/-- External operations of the contract.  Every state mutation goes through
one of these. -/
inductive Op where
  | createGame (caller blackPlayer timeControl bettingTier : Nat)
  | startGame (caller gameId : Nat)
  | makeMove (caller gameId : Nat) (move : String)
  | submitGameResult (caller gameId result : Nat)
  | resolveDisputedGame (caller gameId result : Nat)
  | placeBet (caller gameId amount : Nat)
  | claimPayout (caller : Nat) (transferOk : Bool)
  | withdrawTokenFees (caller : Nat)
  | placeOrder (caller side timeControl amount : Nat)
  | cancelOrder (caller orderId : Nat)
  | pauseGame (caller gameId : Nat)
  | setHouseFeePercentage (caller value : Nat)
  | setBettingTierAmounts (caller lowAmount mediumAmount : Nat)
  | pause (caller : Nat)
  | unpause (caller : Nat)

/-- One external call. -/
def step (op : Op) (s : CState) : Except String CState :=
  match op with
  | .createGame caller blackPlayer timeControl bettingTier =>
      createGame s caller blackPlayer timeControl bettingTier
  | .startGame caller gameId => startGame s caller gameId
  | .makeMove caller gameId move => makeMove s caller gameId move
  | .submitGameResult caller gameId result => submitGameResult s caller gameId result
  | .resolveDisputedGame caller gameId result =>
      resolveDisputedGame s caller gameId result
  | .placeBet caller gameId amount => placeBet s caller gameId amount
  | .claimPayout caller transferOk => claimPayout s caller transferOk
  | .withdrawTokenFees caller => withdrawTokenFees s caller
  | .placeOrder caller side timeControl amount =>
      placeOrder s caller side timeControl amount
  | .cancelOrder caller orderId => cancelOrder s caller orderId
  | .pauseGame caller gameId => pauseGame s caller gameId
  | .setHouseFeePercentage caller value => setHouseFeePercentage s caller value
  | .setBettingTierAmounts caller lowAmount mediumAmount =>
      setBettingTierAmounts s caller lowAmount mediumAmount
  | .pause caller => pause s caller
  | .unpause caller => unpause s caller

/-- Transaction semantics: a revert keeps the pre-state. -/
def run (op : Op) (s : CState) : CState :=
  match step op s with
  | .ok t => t
  | .error _ => s

/-- A sequence of external calls. -/
def exec (ops : List Op) (s : CState) : CState :=
  ops.foldl (fun t op => run op t) s

/-- States reachable from deployment by external calls. -/
def Reachable (s : CState) : Prop :=
  ∃ owner time ops, s = exec ops (genesis owner time)

/-- Sum of (quantized − filled) over the non-terminal (open or part-filled)
orders queued at a level: what the spec claims `totalAmount` equals. -/
def levelNeed (s : CState) (key : Nat × Nat × Nat) : Nat :=
  ((s.levels key).orderIds.map fun i =>
    if (s.orders i).status ≤ 1
    then (s.orders i).amount - (s.orders i).filledAmount else 0).sum

/-! ### Tolerance-pass visit order (claim C5)

The contract walks fixed tick steps; the engine reimplementation collects the
existing levels inside the band and sorts them by distance.  Both visit orders
are modelled as lists of tick values, parameterised by the set of present
(non-empty) opposite levels in creation order. -/

/-- Tick values probed by the ascending for-loop of _matchNearestLevels,
assuming the order never fills (the full candidate enumeration). -/
def ascProbe (ts maxTick : Nat) : Nat → Nat → List Nat
  | 0, _ => []
  | fuel + 1, tick =>
    if tick ≤ maxTick then tick :: ascProbe ts maxTick fuel (tick + ts) else []

/-- Tick values probed by the descending while-loop of _matchNearestLevels,
with its break once the tick would underflow below zero. -/
def descProbe (ts minTick : Nat) : Nat → Nat → List Nat
  | 0, _ => []
  | fuel + 1, tick =>
    if minTick ≤ tick then
      tick :: (if tick < ts then [] else descProbe ts minTick fuel (tick - ts))
    else []

/-- Tick values the contract tolerance pass probes, in probe order. -/
def contractToleranceTicks (tA ts tolPct : Nat) : List Nat :=
  let tol := tA * tolPct / 100
  let minTick := tA - tol
  let maxTick := tA + tol
  ascProbe ts maxTick (maxTick + 1) (tA + ts) ++
    (if ts ≤ tA then descProbe ts minTick (tA + 1) (tA - ts) else [])

/-- Modelled from the spec words: ascending from tickAmount + tickSize up to
the tolerance ceiling, then descending from tickAmount − tickSize down to the
tolerance floor, clamped at zero. -/
def specToleranceTicks (tA ts tolPct : Nat) : List Nat :=
  let tol := tA * tolPct / 100
  let minTick := tA - tol
  ((List.range (tol / ts)).map fun k => tA + (k + 1) * ts) ++
    (((List.range (tA / ts)).map fun k => tA - (k + 1) * ts).takeWhile
      fun t => decide (minTick ≤ t))

/-- Candidate price levels the contract tolerance pass visits, given the
non-empty opposite levels `present`. -/
def contractVisitOrder (tA ts tolPct : Nat) (present : List Nat) : List Nat :=
  (contractToleranceTicks tA ts tolPct).filter fun t => present.contains t

/-- Absolute tick distance, mirroring the comparator branches of
OrderbookManager.matchNearestLevels. -/
def natDist (a b : Nat) : Nat := if b ≤ a then a - b else b - a

/-- Candidate price levels the engine reimplementation visits: the present
levels inside the tolerance band (the exact level included), stably sorted by
distance to the order tick — Array.prototype.sort with the distance
comparator, which is a stable sort. -/
def engineVisitOrder (tA tolPct : Nat) (present : List Nat) : List Nat :=
  let tol := tA * tolPct / 100
  List.insertionSort (fun x y => natDist x tA ≤ natDist y tA)
    (present.filter fun t => decide (tA - tol ≤ t) && decide (t ≤ tA + tol))

/-! ### Concrete scenario states used by counterexamples and witnesses -/

/-- Boolean success of a call. -/
def exOk : Except String CState → Bool
  | .ok _ => true
  | .error _ => false

/-- Same player (address 7) places a white and a black order of one tick each
on time control 5; the matching pass pairs them into game 3. -/
def selfMatchOps : List Op :=
  [Op.placeOrder 7 0 5 10000000, Op.placeOrder 7 1 5 10000000]

def selfMatchState : CState := exec selfMatchOps (genesis 99 1000)

/-- Direct game, two 50 USDC stakes, both players submit a white win. -/
def decisiveOps : List Op :=
  [Op.createGame 1 2 5 2, Op.placeBet 1 1 50000000, Op.placeBet 2 1 50000000,
   Op.submitGameResult 1 1 0, Op.submitGameResult 2 1 0]

def decisiveState : CState := exec decisiveOps (genesis 99 1000)

/-- Direct game, two stakes, the players disagree (white says white won, black
says black won), so the game stays unresolved until the admin override. -/
def disputeOps : List Op :=
  [Op.createGame 1 2 5 2, Op.placeBet 1 1 50000000, Op.placeBet 2 1 50000000,
   Op.submitGameResult 1 1 0, Op.submitGameResult 2 1 1]

def disputeState : CState := exec disputeOps (genesis 99 1000)

/-- An active game whose move log has been filled to the MAX_MOVES cap. -/
def cappedGameOps : List Op :=
  Op.createGame 1 2 5 0 :: Op.startGame 1 1 ::
    List.replicate MAX_MOVES (Op.makeMove 1 1 "e4")

def cappedGameState : CState := exec cappedGameOps (genesis 99 1000)

/-- Iteration count of the ascending probe loop from `tick`. -/
def acnt (ts maxT tick : Nat) : Nat :=
  if tick ≤ maxT then (maxT - tick) / ts + 1 else 0

/-- Game-store frame between two states: the id counter only grows and every
already-allocated game and pool is untouched. -/
def GFrame (s t : CState) : Prop :=
  s.nextId ≤ t.nextId ∧
  ∀ g, g < s.nextId →
    t.bettingPools g = s.bettingPools g ∧ t.games g = s.games g

/-- The operations that try to resolve game `g`: mutual confirmation,
administrative override, emergency unwind. -/
def ResolutionAttempt (op : Op) (g : Nat) : Prop :=
  (∃ c r, op = Op.submitGameResult c g r) ∨
  (∃ c r, op = Op.resolveDisputedGame c g r) ∨
  (∃ c, op = Op.pauseGame c g)

/-- Well-formedness of the orderbook store, maintained by every reachable
state; `needLe` is the amended C6 claim. -/
structure Inv (s : CState) : Prop where
  nextIdPos : 1 ≤ s.nextId
  located : ∀ k i, i ∈ (s.levels k).orderIds →
    (s.orders i).id = i ∧ 1 ≤ i ∧ i < s.nextId ∧
    (s.orders i).timeControl = k.1 ∧ (s.orders i).side = k.2.1 ∧
    (s.orders i).tickAmount = k.2.2
  nodup : ∀ k, (s.levels k).orderIds.Nodup
  fillLe : ∀ i, (s.orders i).filledAmount ≤ (s.orders i).amount
  filledStatus : ∀ i, (s.orders i).status = 2 →
    (s.orders i).filledAmount = (s.orders i).amount
  noCancelQueued : ∀ k i, i ∈ (s.levels k).orderIds → (s.orders i).status ≠ 3
  statusLe : ∀ i, (s.orders i).status ≤ 3
  openQueued : ∀ i, 1 ≤ i → (s.orders i).id = i → (s.orders i).status ≤ 1 →
    i ∈ (s.levels ((s.orders i).timeControl, (s.orders i).side,
      (s.orders i).tickAmount)).orderIds
  ordPhantom : ∀ i, ¬ ((s.orders i).id = i ∧ 1 ≤ i) →
    (s.orders i).amount = 0 ∧ (s.orders i).filledAmount = 0
  needLe : ∀ k, levelNeed s k ≤ (s.levels k).totalAmount

/-- State fragment of _matchAtLevel: mark the queue head filled and swap-pop
it off its level queue. -/
def popState (s : CState) (hd : Nat) (key : Nat × Nat × Nat) : CState :=
  { s with orders := upd s.orders hd ({ s.orders hd with status := 2 }),
           levels := upd s.levels key
             ({ s.levels key with
                orderIds := swapPopHead (s.levels key).orderIds }) }

/-- State fragment of _matchAtLevel: one fill of `m` between the incoming
order `oid` and the resting head `hd`: the match game is created, both filled
amounts advance by `m`, the level aggregate drops by `m`. -/
def fillState (s : CState) (oid hd : Nat) (key : Nat × Nat × Nat)
    (m : Nat) : CState :=
  let s1 := createMatch s oid hd m
  let o1 := s1.orders oid
  let s2 := { s1 with
    orders := upd s1.orders oid ({ o1 with filledAmount := o1.filledAmount + m }) }
  let h2 := s2.orders hd
  let s3 := { s2 with
    orders := upd s2.orders hd ({ h2 with filledAmount := h2.filledAmount + m }) }
  let lvl3 := s3.levels key
  { s3 with
    levels := upd s3.levels key
      ({ lvl3 with totalAmount := lvl3.totalAmount - m }) }

/-- State fragment of _matchAtLevel: write the incoming order's status. -/
def setStatusState (s : CState) (oid st : Nat) : CState :=
  { s with orders := upd s.orders oid ({ s.orders oid with status := st }) }

/-- Tail of _attemptMatch after the status guard, with the opposite side
resolved. -/
def attemptMatchTail (s : CState) (oid opp : Nat) : CState :=
  let o := s.orders oid
  let exactKey := (o.timeControl, opp, o.tickAmount)
  let s1 :=
    if 0 < (s.levels exactKey).totalAmount then
      matchAtLevel s oid exactKey (o.amount - o.filledAmount)
    else s
  let o1 := s1.orders oid
  if o1.status = 0 ∨ o1.status = 1 then
    let remainingAfter := o1.amount - o1.filledAmount
    if 0 < remainingAfter then matchNearestLevels s1 oid opp remainingAfter
    else s1
  else s1

/-- Contribution of one order id to its level's claimed aggregate. -/
def contrib (os : Nat → Order) (i : Nat) : Nat :=
  if (os i).status ≤ 1 then (os i).amount - (os i).filledAmount else 0

end ChessBet

namespace ChessBet

set_option maxRecDepth 16000

/-! ### Claim theorems -/

/-- C10: the matching engine never checks order ownership, so one address on
both sides of the same time control gets matched against itself: game 3 of
`selfMatchState` has the same white and black player and is active with both
stakes recorded, while `createGame` rejects an opponent equal to the caller. -/
theorem self_match_possible :
    (selfMatchState.games 3).whitePlayer = 7 ∧
    (selfMatchState.games 3).blackPlayer = 7 ∧
    (selfMatchState.games 3).status = 1 ∧
    (selfMatchState.gameBets 3).map GameBet.player = [7, 7] ∧
    (selfMatchState.bettingPools 3).totalAmount = 20000000 ∧
    exOk (step (Op.createGame 7 7 5 2) (genesis 99 1000)) = false := by
  decide

/-- C6 counterexample: after the two matching placeOrder calls of
`selfMatchState`, the black level at tick 10000000 still records aggregate
10000000 although its only queued order is terminal (filled), so the sum of
(quantized − filled) over non-terminal orders at the level is 0: the claimed
equality fails on a reachable level. -/
theorem level_aggregate_cex :
    (selfMatchState.levels (5, 1, 10000000)).totalAmount = 10000000 ∧
    levelNeed selfMatchState (5, 1, 10000000) = 0 ∧
    ¬ (selfMatchState.levels (5, 1, 10000000)).totalAmount =
        levelNeed selfMatchState (5, 1, 10000000) := by
  decide

/-- C5 counterexample: for an order at tick 200 (tick size 10, tolerance 5%)
with opposite levels present at 190 and 210 (created in that order), the
contract tolerance pass visits 210 then 190, while the engine reimplementation
sorts candidates by distance (both 10, stable tie) and visits 190 then 210:
the two visit orders differ. -/
theorem tolerance_visit_order_cex :
    contractVisitOrder 200 10 5 [190, 210] = [210, 190] ∧
    engineVisitOrder 200 5 [190, 210] = [190, 210] ∧
    ¬ engineVisitOrder 200 5 [190, 210] = contractVisitOrder 200 10 5 [190, 210] := by
  decide

/-- C7: a decisive resolution writes the winner bet with status 0 and the
loser bet with status 1, although the GameBet struct documents 0 = pending,
1 = won, 2 = lost: in `decisiveState` (white player 1 wins) the recorded
statuses are [0, 1], not [BET_STATUS_WON, BET_STATUS_LOST]; the payouts do
match the claim (net pool 95 USDC to the winner, 0 to the loser). -/
theorem decisive_bet_status_eval :
    (decisiveState.bettingPools 1).winner = 1 ∧
    (decisiveState.gameBets 1).map GameBet.player = [1, 2] ∧
    (decisiveState.gameBets 1).map GameBet.payout = [95000000, 0] ∧
    (decisiveState.gameBets 1).map GameBet.status = [0, 1] ∧
    ¬ (decisiveState.gameBets 1).map GameBet.status =
        [BET_STATUS_WON, BET_STATUS_LOST] := by
  decide

/-- C1: from a fresh game between A and B with fee rate r held fixed, staking
a and b and resolving decisively (both players submit the same decisive
result w) credits the winner exactly (a+b) − (a+b)·r/10000 in pending
payouts, credits the loser nothing, and adds (a+b)·r/10000 to the house fee
accumulator. -/
theorem decisive_payout_invariant (o t A B a b r w : Nat) (p0 : Nat → Nat)
    (f0 : Nat) (hAB : A ≠ B) (hB0 : B ≠ 0) (ha : USDC_UNIT ≤ a)
    (hb : USDC_UNIT ≤ b) (hr : r ≤ 1000) (hw : w ≤ 1) :
    let s0 : CState :=
      { genesis o t with houseFeePercentage := r, pendingPayouts := p0,
                         tokenFeeBalance := f0 }
    let s5 := exec [Op.createGame A B 5 2, Op.placeBet A 1 a, Op.placeBet B 1 b,
                    Op.submitGameResult A 1 w, Op.submitGameResult B 1 w] s0
    let fee := (a + b) * r / 10000
    s5.pendingPayouts (if w = 0 then A else B) =
      p0 (if w = 0 then A else B) + ((a + b) - fee) ∧
    s5.pendingPayouts (if w = 0 then B else A) = p0 (if w = 0 then B else A) ∧
    s5.tokenFeeBalance = f0 + fee ∧
    (s5.bettingPools 1).resolved = true := by
  have hBA : B ≠ A := fun h => hAB h.symm
  have ha0 : a ≠ 0 := by intro h; rw [h] at ha; simp [USDC_UNIT] at ha
  have ha2 : 1000000 ≤ a := ha
  have hb2 : 1000000 ≤ b := hb
  clear hr
  interval_cases w <;>
    simp [exec, run, step, createGame, placeBet, submitGameResult, resolveBets,
      isValidBetAmount, indexPlayerGame, upd, upd2, genesis, USDC_UNIT,
      hAB, hBA, hB0, ha2, hb2, ha0, List.any]

/-- C1 witness: players 1 and 2 stake 50 USDC each at the default 5% fee;
white wins and is credited 95 USDC, the fee accumulator gets 5 USDC. -/
theorem decisive_payout_invariant_witness :
    (1 : Nat) ≠ 2 ∧ (2 : Nat) ≠ 0 ∧ USDC_UNIT ≤ 50000000 ∧ (500 : Nat) ≤ 1000 ∧
    (0 : Nat) ≤ 1 ∧
    ((exec [Op.createGame 1 2 5 2, Op.placeBet 1 1 50000000,
            Op.placeBet 2 1 50000000, Op.submitGameResult 1 1 0,
            Op.submitGameResult 2 1 0]
        { genesis 99 1000 with houseFeePercentage := 500,
                               pendingPayouts := fun _ => 0,
                               tokenFeeBalance := 0 }).pendingPayouts 1 =
      0 + (50000000 + 50000000 - (50000000 + 50000000) * 500 / 10000)) := by
  refine ⟨by decide, by decide, by decide, by decide, by decide, ?_⟩
  have h := decisive_payout_invariant 99 1000 1 2 50000000 50000000 500 0
    (fun _ => 0) 0 (by decide) (by decide) (by decide) (by decide) (by decide)
    (by decide)
  exact h.1

/-- C3: from a fresh game between A and B, staking a and b and resolving as a
draw (both players submit result 2) refunds exactly a to A and b to B through
the pending-payout ledger, records no winner, and leaves the house fee
accumulator unchanged. -/
theorem draw_refund_invariant (o t A B a b r : Nat) (p0 : Nat → Nat)
    (f0 : Nat) (hAB : A ≠ B) (hB0 : B ≠ 0) (ha : USDC_UNIT ≤ a)
    (hb : USDC_UNIT ≤ b) :
    let s0 : CState :=
      { genesis o t with houseFeePercentage := r, pendingPayouts := p0,
                         tokenFeeBalance := f0 }
    let s5 := exec [Op.createGame A B 5 2, Op.placeBet A 1 a, Op.placeBet B 1 b,
                    Op.submitGameResult A 1 2, Op.submitGameResult B 1 2] s0
    s5.pendingPayouts A = p0 A + a ∧
    s5.pendingPayouts B = p0 B + b ∧
    s5.tokenFeeBalance = f0 ∧
    (s5.bettingPools 1).winner = 0 ∧
    (s5.bettingPools 1).houseFee = 0 ∧
    (s5.bettingPools 1).resolved = true := by
  have hBA : B ≠ A := fun h => hAB h.symm
  have ha0 : a ≠ 0 := by intro h; rw [h] at ha; simp [USDC_UNIT] at ha
  have ha2 : 1000000 ≤ a := ha
  have hb2 : 1000000 ≤ b := hb
  simp [exec, run, step, createGame, placeBet, submitGameResult, resolveBets,
    isValidBetAmount, indexPlayerGame, upd, upd2, genesis, USDC_UNIT,
    hAB, hBA, hB0, ha2, hb2, ha0, List.any]

/-- C4: claimPayout zeroes the pending balance strictly before the external
transfer (the trace lists the zeroing first and the transfer runs against
`claimZeroedState`, whose balance is 0); a zero-balance claim reverts with no
state change; a failed transfer reverts the call with the balance intact. -/
theorem claim_zero_before_transfer (s : CState) (caller : Nat) (ok : Bool) :
    (s.pendingPayouts caller = 0 →
      step (Op.claimPayout caller ok) s = .error "No pending payout" ∧
      run (Op.claimPayout caller ok) s = s) ∧
    (0 < s.pendingPayouts caller →
      claimPayoutTrace s caller =
        [XEffect.zeroPending caller,
         XEffect.transferOut caller (s.pendingPayouts caller)] ∧
      (claimZeroedState s caller).pendingPayouts caller = 0 ∧
      (ok = true →
        step (Op.claimPayout caller ok) s = .ok (claimZeroedState s caller)) ∧
      (ok = false →
        step (Op.claimPayout caller ok) s = .error "SafeERC20: transfer failed" ∧
        run (Op.claimPayout caller ok) s = s)) := by
  constructor
  · intro h
    simp [step, run, claimPayout, h]
  · intro h
    have h0 : ¬ s.pendingPayouts caller = 0 := by omega
    refine ⟨by simp [claimPayoutTrace, h0], by simp [claimZeroedState, upd], ?_, ?_⟩
    · intro hok
      simp [step, claimPayout, h0, hok]
    · intro hok
      simp [step, run, claimPayout, h0, hok]

/-- C8: the administrative override fails with no state change whenever either
participant has not voted, and with both votes present (their values
unconstrained — agreement is not required) the owner can force any result
res ≤ 2 on an active unresolved two-bet game. -/
theorem disputed_requires_both_votes (s : CState) (caller g res : Nat) :
    (¬ (s.resultSubmitted g (s.games g).whitePlayer = true ∧
        s.resultSubmitted g (s.games g).blackPlayer = true) →
      exOk (step (Op.resolveDisputedGame caller g res) s) = false ∧
      run (Op.resolveDisputedGame caller g res) s = s) ∧
    (caller = s.owner → (s.games g).id ≠ 0 → res ≤ 2 →
      s.resultResolved g = false → (s.games g).status = 1 →
      s.resultSubmitted g (s.games g).whitePlayer = true →
      s.resultSubmitted g (s.games g).blackPlayer = true →
      (s.bettingPools g).resolved = false → (s.gameBets g).length = 2 →
      exOk (step (Op.resolveDisputedGame caller g res) s) = true ∧
      ((run (Op.resolveDisputedGame caller g res) s).games g).result = res ∧
      (run (Op.resolveDisputedGame caller g res) s).resultFinal g = res ∧
      ((run (Op.resolveDisputedGame caller g res) s).games g).status = 2 ∧
      ((run (Op.resolveDisputedGame caller g res) s).bettingPools g).resolved
        = true) := by
  constructor
  · intro hnv
    simp only [step, run, resolveDisputedGame]
    split_ifs with h1 h2 h3 h4 h5 h6 <;> simp [exOk] <;>
      exact absurd h6 hnv
  · intro hown hid hres hunres hact hw hb hpool hlen
    simp only [step, run, resolveDisputedGame, hunres]
    rw [if_neg (by simp [hown]), if_neg (by simpa using hid), if_neg (by omega),
      if_neg (by simp), if_neg (by simpa using hact), if_neg (by simp [hw, hb])]
    simp only [resolveBets, upd, upd2]
    have hpool2 : (s.bettingPools g).resolved = false := hpool
    by_cases h2 : res = 2 <;>
      simp [h2, hpool2, hlen, exOk, upd]

/-- C8 witness: in `disputeState` the votes disagree (white says 0, black
says 1); the owner (address 99) forces a draw and the game resolves. -/
theorem disputed_requires_both_votes_witness :
    ((99 : Nat) = disputeState.owner ∧ (disputeState.games 1).id ≠ 0 ∧
      (2 : Nat) ≤ 2 ∧ disputeState.resultResolved 1 = false ∧
      (disputeState.games 1).status = 1 ∧
      disputeState.resultSubmitted 1 (disputeState.games 1).whitePlayer = true ∧
      disputeState.resultSubmitted 1 (disputeState.games 1).blackPlayer = true ∧
      (disputeState.bettingPools 1).resolved = false ∧
      (disputeState.gameBets 1).length = 2) ∧
    exOk (step (Op.resolveDisputedGame 99 1 2) disputeState) = true ∧
    ((run (Op.resolveDisputedGame 99 1 2) disputeState).games 1).result = 2 := by
  refine ⟨⟨by decide, by decide, by decide, by decide, by decide, by decide,
    by decide, by decide, by decide⟩, ?_⟩
  have h := (disputed_requires_both_votes disputeState 99 1 2).2 (by decide)
    (by decide) (by decide) (by decide) (by decide) (by decide) (by decide)
    (by decide) (by decide)
  exact ⟨h.1, h.2.1⟩

/-- C9 counterexample: in `cappedGameState` the game is active with
moveCount = MAX_MOVES; a further legal-sized makeMove call succeeds (it is not
surfaced as an error, contradicting the claim) and silently leaves the move
log unchanged. -/
theorem move_cap_silent_cex :
    (cappedGameState.games 1).status = 1 ∧
    (cappedGameState.games 1).moveCount = MAX_MOVES ∧
    String.length "e4" ≤ MAX_MOVE_BYTES ∧
    exOk (step (Op.makeMove 1 1 "e4") cappedGameState) = true ∧
    (run (Op.makeMove 1 1 "e4") cappedGameState).games 1 =
      cappedGameState.games 1 := by
  refine ⟨by decide, by decide, by decide, by decide, ?_⟩
  have h : step (Op.makeMove 1 1 "e4") cappedGameState = .ok cappedGameState := by
    simp only [step, makeMove]
    rw [if_neg (by decide), if_neg (by decide), if_neg (by decide),
      if_neg (by decide), if_neg (by decide)]
  simp [run, h]

/-- C9 amended: an oversized move reverts with no state change, a move on a
non-active game reverts with no state change, but a move arriving after the
move-count cap has been reached is NOT surfaced as an error: the call
succeeds and changes nothing. -/
theorem move_cap_amended (s : CState) (caller g : Nat) (mv : String) :
    (MAX_MOVE_BYTES < mv.length →
      exOk (step (Op.makeMove caller g mv) s) = false ∧
      run (Op.makeMove caller g mv) s = s) ∧
    ((s.games g).status ≠ 1 →
      exOk (step (Op.makeMove caller g mv) s) = false ∧
      run (Op.makeMove caller g mv) s = s) ∧
    ((s.games g).id ≠ 0 →
      (caller = (s.games g).whitePlayer ∨ caller = (s.games g).blackPlayer) →
      (s.games g).status = 1 → mv.length ≤ MAX_MOVE_BYTES →
      MAX_MOVES ≤ (s.games g).moveCount →
      step (Op.makeMove caller g mv) s = .ok s) := by
  refine ⟨?_, ?_, ?_⟩
  · intro hlen
    have hnl : ¬ mv.length ≤ MAX_MOVE_BYTES := by omega
    simp only [step, run, makeMove]
    split_ifs with h1 h2 h3 h4 h5 <;> simp_all [exOk]
  · intro hst
    simp only [step, run, makeMove]
    split_ifs with h1 h2 h3 h4 h5 <;> simp_all [exOk]
  · intro hid hpl hact hlen hcap
    simp only [step, makeMove]
    rw [if_neg (by simpa using hid), if_neg (not_not_intro hpl),
      if_neg (by simpa using hact), if_neg (not_not_intro hlen),
      if_neg (by omega)]

/-- Closed form of the ascending probe loop. -/
theorem ascProbe_eq_range (ts maxT : Nat) (hts : 0 < ts) :
    ∀ fuel tick, acnt ts maxT tick ≤ fuel →
      ascProbe ts maxT fuel tick =
        (List.range (acnt ts maxT tick)).map fun k => tick + k * ts := by
  intro fuel
  induction fuel with
  | zero =>
    intro tick h
    have h0 : acnt ts maxT tick = 0 := Nat.le_zero.mp h
    have hle : ¬ tick ≤ maxT := by
      intro hle; unfold acnt at h0; rw [if_pos hle] at h0
      exact Nat.succ_ne_zero _ h0
    rw [h0]
    simp [ascProbe, hle]
  | succ fuel ih =>
    intro tick h
    by_cases hle : tick ≤ maxT
    · have hacnt : acnt ts maxT tick = acnt ts maxT (tick + ts) + 1 := by
        unfold acnt
        rw [if_pos hle]
        by_cases h2 : tick + ts ≤ maxT
        · rw [if_pos h2]
          have hsub : ts ≤ maxT - tick := by omega
          rw [Nat.div_eq_sub_div hts hsub]
          have he : maxT - tick - ts = maxT - (tick + ts) := by omega
          rw [he]
        · rw [if_neg h2]
          have hlt : maxT - tick < ts := by omega
          rw [Nat.div_eq_of_lt hlt]
      rw [hacnt, List.range_succ_eq_map]
      simp only [ascProbe]
      rw [if_pos hle, ih (tick + ts) (by omega)]
      simp only [List.map_cons, List.map_map, Nat.zero_mul, Nat.add_zero]
      refine congrArg (List.cons tick) ?_
      refine List.map_congr_left fun k _ => ?_
      simp only [Function.comp_apply, Nat.succ_eq_add_one]
      ring
    · have h0 : acnt ts maxT tick = 0 := by unfold acnt; rw [if_neg hle]
      rw [h0]
      simp [ascProbe, hle]

/-- Closed form of the descending probe loop: it walks the zero-clamped ladder
and stops at the tolerance floor. -/
theorem descProbe_eq_range (ts minT : Nat) (hts : 0 < ts) :
    ∀ fuel tick, tick / ts + 1 ≤ fuel →
      descProbe ts minT fuel tick =
        ((List.range (tick / ts + 1)).map fun k => tick - k * ts).takeWhile
          (fun t => decide (minT ≤ t)) := by
  intro fuel
  induction fuel with
  | zero => intro tick h; exact absurd h (Nat.not_succ_le_zero _)
  | succ fuel ih =>
    intro tick h
    by_cases hm : minT ≤ tick
    · rw [List.range_succ_eq_map]
      simp only [List.map_cons, Nat.zero_mul, Nat.sub_zero, List.map_map,
        List.takeWhile_cons, decide_eq_true_eq]
      rw [if_pos hm]
      simp only [descProbe]
      rw [if_pos hm]
      refine congrArg (List.cons tick) ?_
      by_cases hts2 : tick < ts
      · rw [if_pos hts2]
        have hdiv : tick / ts = 0 := Nat.div_eq_of_lt hts2
        simp [hdiv]
      · rw [if_neg hts2]
        have hdiv : tick / ts = (tick - ts) / ts + 1 :=
          Nat.div_eq_sub_div hts (Nat.le_of_not_lt hts2)
        rw [ih (tick - ts) (by omega)]
        have hmapeq :
            (List.range ((tick - ts) / ts + 1)).map (fun k => tick - ts - k * ts) =
            (List.range (tick / ts)).map
              ((fun k => tick - k * ts) ∘ Nat.succ) := by
          rw [hdiv]
          refine List.map_congr_left fun k _ => ?_
          simp only [Function.comp_apply, Nat.succ_eq_add_one]
          have he : (k + 1) * ts = ts + k * ts := by ring
          rw [he, ← Nat.sub_sub]
        rw [hmapeq]
    · simp only [descProbe]
      rw [if_neg hm, List.range_succ_eq_map]
      simp [hm]

/-- C5 amended: the contract tolerance pass does follow the asymmetric ladder
the spec describes — ascending from tickAmount + tickSize to the tolerance
ceiling, then descending from tickAmount − tickSize down to the tolerance
floor clamped at zero — but the engine reimplementation does not reproduce
this visit order (see the counterexample): it sorts all in-band candidate
levels by distance.  The theorem identifies the contract ladder with the
spec-worded ladder for every tick amount, tolerance and positive tick size,
and hence the filtered visit orders over any set of present levels. -/
theorem tolerance_ladder_amended (tA ts tolPct : Nat) (present : List Nat)
    (hts : 0 < ts) :
    contractToleranceTicks tA ts tolPct = specToleranceTicks tA ts tolPct ∧
    contractVisitOrder tA ts tolPct present =
      (specToleranceTicks tA ts tolPct).filter (fun t => present.contains t) := by
  have hmain : contractToleranceTicks tA ts tolPct = specToleranceTicks tA ts tolPct := by
    unfold contractToleranceTicks specToleranceTicks
    refine congrArg₂ List.append ?_ ?_
    · have hcnt : acnt ts (tA + tA * tolPct / 100) (tA + ts) =
          tA * tolPct / 100 / ts := by
        unfold acnt
        by_cases h2 : ts ≤ tA * tolPct / 100
        · rw [if_pos (by omega)]
          have he : tA + tA * tolPct / 100 - (tA + ts) = tA * tolPct / 100 - ts := by
            omega
          rw [he, ← Nat.div_eq_sub_div hts h2]
        · rw [if_neg (by omega), Nat.div_eq_of_lt (by omega)]
      have hfuel : acnt ts (tA + tA * tolPct / 100) (tA + ts) ≤
          tA + tA * tolPct / 100 + 1 := by
        unfold acnt
        split
        · generalize hD : (tA + tA * tolPct / 100 - (tA + ts)) / ts = D
          have hd : D ≤ tA + tA * tolPct / 100 - (tA + ts) :=
            hD ▸ Nat.div_le_self _ _
          omega
        · omega
      rw [ascProbe_eq_range ts (tA + tA * tolPct / 100) hts
        (tA + tA * tolPct / 100 + 1) (tA + ts) hfuel, hcnt]
      refine List.map_congr_left fun k _ => by ring
    · by_cases hta : ts ≤ tA
      · rw [if_pos hta]
        have hfuel2 : (tA - ts) / ts + 1 ≤ tA + 1 :=
          Nat.add_le_add_right
            (le_trans (Nat.div_le_self (tA - ts) ts) (Nat.sub_le _ _)) 1
        rw [descProbe_eq_range ts (tA - tA * tolPct / 100) hts (tA + 1) (tA - ts)
          hfuel2]
        have hdiv : (tA - ts) / ts + 1 = tA / ts :=
          (Nat.div_eq_sub_div hts hta).symm
        rw [hdiv]
        refine congrArg _ (List.map_congr_left fun k _ => ?_)
        have he : (k + 1) * ts = ts + k * ts := by ring
        rw [he, ← Nat.sub_sub]
      · rw [if_neg hta]
        have hdiv : tA / ts = 0 := Nat.div_eq_of_lt (by omega)
        rw [hdiv]
        simp
  exact ⟨hmain, by unfold contractVisitOrder; rw [hmain]⟩

/-- C5 amended witness: the ladder identity evaluated at tick 200, tick size
10, tolerance 5% with levels 190 and 210 present. -/
theorem tolerance_ladder_amended_witness :
    (0 : Nat) < 10 ∧
    contractToleranceTicks 200 10 5 = specToleranceTicks 200 10 5 ∧
    contractVisitOrder 200 10 5 [190, 210] =
      (specToleranceTicks 200 10 5).filter (fun t => [190, 210].contains t) :=
  ⟨by decide, (tolerance_ladder_amended 200 10 5 [190, 210] (by decide)).1,
    (tolerance_ladder_amended 200 10 5 [190, 210] (by decide)).2⟩

/-- Fields indexPlayerGame leaves untouched. -/
theorem indexPlayerGame_proj (s : CState) (p g : Nat) :
    (indexPlayerGame s p g).games = s.games ∧
    (indexPlayerGame s p g).bettingPools = s.bettingPools ∧
    (indexPlayerGame s p g).gameBets = s.gameBets ∧
    (indexPlayerGame s p g).pendingPayouts = s.pendingPayouts ∧
    (indexPlayerGame s p g).orders = s.orders ∧
    (indexPlayerGame s p g).levels = s.levels ∧
    (indexPlayerGame s p g).nextId = s.nextId := by
  unfold indexPlayerGame
  split <;> exact ⟨rfl, rfl, rfl, rfl, rfl, rfl, rfl⟩

/-- recordBet leaves the orders store untouched. -/
theorem recordBet_orders (u : CState) (gid p m : Nat) :
    (recordBet u gid p m).orders = u.orders := by
  simp only [recordBet, indexPlayerGame]
  split <;> rfl

/-- recordBet leaves the level store untouched. -/
theorem recordBet_levels (u : CState) (gid p m : Nat) :
    (recordBet u gid p m).levels = u.levels := by
  simp only [recordBet, indexPlayerGame]
  split <;> rfl

/-- recordBet leaves the id counter untouched. -/
theorem recordBet_nextId (u : CState) (gid p m : Nat) :
    (recordBet u gid p m).nextId = u.nextId := by
  simp only [recordBet, indexPlayerGame]
  split <;> rfl

/-- recordBet leaves the games store untouched. -/
theorem recordBet_games (u : CState) (gid p m : Nat) :
    (recordBet u gid p m).games = u.games := by
  simp only [recordBet, indexPlayerGame]
  split <;> rfl

/-- recordBet leaves the tick parameters untouched. -/
theorem recordBet_ticks (u : CState) (gid p m : Nat) :
    (recordBet u gid p m).tickSize = u.tickSize ∧
    (recordBet u gid p m).tolerancePercentage = u.tolerancePercentage := by
  simp only [recordBet, indexPlayerGame]
  split <;> exact ⟨rfl, rfl⟩

/-- recordBet writes pools only at its game id. -/
theorem recordBet_pools_ne (u : CState) (gid p m g : Nat) (hg : g ≠ gid) :
    (recordBet u gid p m).bettingPools g = u.bettingPools g := by
  simp only [recordBet, indexPlayerGame]
  split <;> simp [upd, hg]

/-- createMatch does not touch the orders store. -/
theorem createMatch_orders (s : CState) (a b m : Nat) :
    (createMatch s a b m).orders = s.orders := by
  simp [createMatch, recordBet_orders]

/-- createMatch does not touch the level store. -/
theorem createMatch_levels (s : CState) (a b m : Nat) :
    (createMatch s a b m).levels = s.levels := by
  simp [createMatch, recordBet_levels]

/-- createMatch allocates exactly one fresh id. -/
theorem createMatch_nextId (s : CState) (a b m : Nat) :
    (createMatch s a b m).nextId = s.nextId + 1 := by
  simp [createMatch, recordBet_nextId]

/-- createMatch keeps the tick parameters. -/
theorem createMatch_tickSize (s : CState) (a b m : Nat) :
    (createMatch s a b m).tickSize = s.tickSize ∧
    (createMatch s a b m).tolerancePercentage = s.tolerancePercentage := by
  constructor <;> simp [createMatch, recordBet_ticks, (recordBet_ticks _ _ _ _).1,
    (recordBet_ticks _ _ _ _).2]

/-- createMatch writes games and pools only at the fresh id. -/
theorem createMatch_frame_lt (s : CState) (a b m : Nat) (g : Nat)
    (hg : g < s.nextId) :
    (createMatch s a b m).bettingPools g = s.bettingPools g ∧
    (createMatch s a b m).games g = s.games g := by
  have hne : g ≠ s.nextId := by omega
  constructor
  · simp only [createMatch]
    rw [recordBet_pools_ne _ _ _ _ _ hne, recordBet_pools_ne _ _ _ _ _ hne]
    simp [upd, hne]
  · simp only [createMatch]
    rw [recordBet_games, recordBet_games]
    simp [upd, hne]

/-- GFrame is reflexive-by-fields and composes. -/
theorem gframe_of_eq (s t : CState) (h1 : t.nextId = s.nextId)
    (h2 : t.bettingPools = s.bettingPools) (h3 : t.games = s.games) :
    GFrame s t := by
  exact ⟨h1 ▸ le_refl _, fun g _ => ⟨by rw [h2], by rw [h3]⟩⟩

theorem gframe_trans {s t u : CState} (h1 : GFrame s t) (h2 : GFrame t u) :
    GFrame s u := by
  refine ⟨le_trans h1.1 h2.1, fun g hg => ?_⟩
  obtain ⟨p1, q1⟩ := h1.2 g hg
  obtain ⟨p2, q2⟩ := h2.2 g (lt_of_lt_of_le hg h1.1)
  exact ⟨p2.trans p1, q2.trans q1⟩

theorem createMatch_gframe (s : CState) (a b m : Nat) :
    GFrame s (createMatch s a b m) := by
  refine ⟨by rw [createMatch_nextId]; omega, fun g hg => createMatch_frame_lt s a b m g hg⟩

/-- GFrame through a conditional. -/
theorem gframe_ite (s : CState) (c : Prop) [Decidable c] (t1 t2 : CState)
    (h1 : GFrame s t1) (h2 : GFrame s t2) : GFrame s (if c then t1 else t2) := by
  split <;> assumption

/-- GFrame through an orders/levels overwrite. -/
theorem gframe_to_update (s t : CState) (h : GFrame s t) (o2 : Nat → Order)
    (l2 : Nat × Nat × Nat → OrderbookLevel) :
    GFrame s { t with orders := o2, levels := l2 } :=
  gframe_trans h ⟨le_refl _, fun _ _ => ⟨rfl, rfl⟩⟩

/-- The match loop only allocates games/pools at fresh ids. -/
theorem matchLoop_gframe (oid : Nat) (key : Nat × Nat × Nat) :
    ∀ fuel s remaining, GFrame s (matchLoop oid key fuel s remaining) := by
  intro fuel
  induction fuel with
  | zero =>
    intro s r
    exact gframe_of_eq _ _ rfl rfl rfl
  | succ fuel ih =>
    intro s r
    rw [matchLoop]
    split
    · exact gframe_of_eq _ _ rfl rfl rfl
    · split
      · exact gframe_of_eq _ _ rfl rfl rfl
      · dsimp only
        split
        · split
          · refine gframe_trans ?_ (ih _ _)
            exact gframe_of_eq _ _ rfl rfl rfl
          · exact gframe_of_eq _ _ rfl rfl rfl
        · split
          · refine gframe_trans ?_ (ih _ _)
            exact gframe_to_update s _ (createMatch_gframe s oid _ _) _ _
          · refine gframe_trans ?_ (ih _ _)
            exact gframe_to_update s _ (createMatch_gframe s oid _ _) _ _

theorem matchAtLevel_gframe (s : CState) (oid : Nat) (key : Nat × Nat × Nat)
    (maxAmount : Nat) : GFrame s (matchAtLevel s oid key maxAmount) := by
  unfold matchAtLevel
  dsimp only
  split
  · exact gframe_trans (matchLoop_gframe oid key _ s _)
      (gframe_of_eq _ _ rfl rfl rfl)
  · split
    · exact gframe_trans (matchLoop_gframe oid key _ s _)
        (gframe_of_eq _ _ rfl rfl rfl)
    · exact matchLoop_gframe oid key _ s _

theorem ascendLoop_gframe (oid tc opp ts maxTick : Nat) :
    ∀ fuel s tick remaining,
      GFrame s (ascendLoop oid tc opp ts maxTick fuel s tick remaining).1 := by
  intro fuel
  induction fuel with
  | zero => intro s tick r; exact gframe_of_eq _ _ rfl rfl rfl
  | succ fuel ih =>
    intro s tick r
    rw [ascendLoop]
    split
    · split
      · dsimp only
        exact gframe_trans (matchAtLevel_gframe s oid _ r) (ih _ _ _)
      · exact ih _ _ _
    · exact gframe_of_eq _ _ rfl rfl rfl

theorem descendLoop_gframe (oid tc opp ts minTick : Nat) :
    ∀ fuel s tick remaining,
      GFrame s (descendLoop oid tc opp ts minTick fuel s tick remaining) := by
  intro fuel
  induction fuel with
  | zero => intro s tick r; exact gframe_of_eq _ _ rfl rfl rfl
  | succ fuel ih =>
    intro s tick r
    rw [descendLoop]
    split
    · split
      · dsimp only
        split
        · exact matchAtLevel_gframe s oid _ r
        · exact gframe_trans (matchAtLevel_gframe s oid _ r) (ih _ _ _)
      · split
        · exact gframe_of_eq _ _ rfl rfl rfl
        · exact ih _ _ _
    · exact gframe_of_eq _ _ rfl rfl rfl

theorem matchNearestLevels_gframe (s : CState) (oid opp maxAmount : Nat) :
    GFrame s (matchNearestLevels s oid opp maxAmount) := by
  unfold matchNearestLevels
  dsimp only
  split
  · exact gframe_trans (ascendLoop_gframe _ _ _ _ _ _ _ _ _)
      (descendLoop_gframe _ _ _ _ _ _ _ _ _)
  · exact ascendLoop_gframe _ _ _ _ _ _ _ _ _

theorem attemptMatch_gframe (s : CState) (oid : Nat) :
    GFrame s (attemptMatch s oid) := by
  unfold attemptMatch
  dsimp only
  split
  · exact gframe_of_eq _ _ rfl rfl rfl
  · refine gframe_ite _ _ _ _ ?_ ?_
    · refine gframe_ite _ _ _ _ ?_ ?_
      · refine gframe_trans ?_ (matchNearestLevels_gframe _ _ _ _)
        refine gframe_ite _ _ _ _ ?_ ?_
        · exact matchAtLevel_gframe _ _ _ _
        · exact gframe_of_eq _ _ rfl rfl rfl
      · refine gframe_ite _ _ _ _ ?_ ?_
        · exact matchAtLevel_gframe _ _ _ _
        · exact gframe_of_eq _ _ rfl rfl rfl
    · refine gframe_ite _ _ _ _ ?_ ?_
      · exact matchAtLevel_gframe _ _ _ _
      · exact gframe_of_eq _ _ rfl rfl rfl

/-- Lookup of a pointwise update at another key. -/
theorem upd_ne {K V : Type} [DecidableEq K] (f : K → V) (k k2 : K) (v : V)
    (h : k2 ≠ k) : upd f k v k2 = f k2 := by
  simp [upd, h]

/-- A resolution attempt by submitGameResult names its game. -/
theorem ra_submit_eq (c gid res g : Nat)
    (h : ResolutionAttempt (Op.submitGameResult c gid res) g) : gid = g := by
  rcases h with ⟨c2, r2, hh⟩ | ⟨c2, r2, hh⟩ | ⟨c2, hh⟩
  · injection hh with h1 h2 h3 <;> try exact h2
  · cases hh
  · cases hh

/-- A resolution attempt by resolveDisputedGame names its game. -/
theorem ra_disputed_eq (c gid res g : Nat)
    (h : ResolutionAttempt (Op.resolveDisputedGame c gid res) g) : gid = g := by
  rcases h with ⟨c2, r2, hh⟩ | ⟨c2, r2, hh⟩ | ⟨c2, hh⟩
  · cases hh
  · injection hh with h1 h2 h3 <;> try exact h2
  · cases hh

/-- A resolution attempt by pauseGame names its game. -/
theorem ra_pauseGame_eq (c gid g : Nat)
    (h : ResolutionAttempt (Op.pauseGame c gid) g) : gid = g := by
  rcases h with ⟨c2, r2, hh⟩ | ⟨c2, r2, hh⟩ | ⟨c2, hh⟩
  · cases hh
  · cases hh
  · injection hh with h1 h2 <;> try exact h2

/-- A frame step preserves "pool resolved and game finished" below the old
id counter. -/
theorem gframe_resolved (s0 s1 : CState) (g : Nat) (hf : GFrame s0 s1)
    (hlt : g < s0.nextId) (hres : (s0.bettingPools g).resolved = true)
    (hst : (s0.games g).status = 2) :
    g < s1.nextId ∧ (s1.bettingPools g).resolved = true ∧
    (s1.games g).status = 2 := by
  refine ⟨lt_of_lt_of_le hlt hf.1, ?_, ?_⟩
  · rw [(hf.2 g hlt).1]; exact hres
  · rw [(hf.2 g hlt).2]; exact hst

/-- resolveBets keeps the id counter and the games store, and writes pools
only at its own game. -/
theorem resolveBets_frame (s : CState) (gid res : Nat) (t : CState)
    (h : resolveBets s gid res = .ok t) :
    t.nextId = s.nextId ∧ t.games = s.games ∧
    ∀ g2, g2 ≠ gid → t.bettingPools g2 = s.bettingPools g2 := by
  unfold resolveBets at h
  dsimp only at h
  split_ifs at h with h1 h2 h3 h4
  all_goals
    first
    | (injection h with hh
       subst hh
       exact ⟨rfl, rfl, fun g2 hg2 => by simp [upd, hg2]⟩)
    | exact absurd h (by simp)

set_option maxHeartbeats 1600000 in
/-- One step preserves "resolved and finished", and rejects any further
resolution attempt without state change. -/
theorem resolved_step_preserved (s : CState) (g : Nat) (op : Op)
    (hlt : g < s.nextId) (hres : (s.bettingPools g).resolved = true)
    (hst : (s.games g).status = 2) :
    g < (run op s).nextId ∧
    ((run op s).bettingPools g).resolved = true ∧
    ((run op s).games g).status = 2 ∧
    (ResolutionAttempt op g → exOk (step op s) = false ∧ run op s = s) := by
  cases op with
  | createGame c b tc tier =>
    simp only [run, step, createGame]
    split_ifs <;> (try dsimp only) <;>
      first
      | exact ⟨hlt, hres, hst, fun hra => by simp [ResolutionAttempt] at hra⟩
      | exact ⟨Nat.lt_succ_of_lt hlt,
          by rw [upd_ne _ _ _ _ (by omega : g ≠ s.nextId)]; exact hres,
          by rw [upd_ne _ _ _ _ (by omega : g ≠ s.nextId)]; exact hst,
          fun hra => by simp [ResolutionAttempt] at hra⟩
  | startGame c gid =>
    by_cases hgid : gid = g
    · subst hgid
      simp only [run, step, startGame]
      split_ifs <;> (try dsimp only) <;>
        first
        | exact ⟨hlt, hres, hst, fun hra => by simp [ResolutionAttempt] at hra⟩
        | simp_all
    · have hne : g ≠ gid := fun hh => hgid hh.symm
      simp only [run, step, startGame]
      split_ifs <;> (try dsimp only) <;>
        first
        | exact ⟨hlt, hres, hst, fun hra => by simp [ResolutionAttempt] at hra⟩
        | exact ⟨hlt, hres, by rw [upd_ne _ _ _ _ hne]; exact hst,
            fun hra => by simp [ResolutionAttempt] at hra⟩
  | makeMove c gid mv =>
    by_cases hgid : gid = g
    · subst hgid
      simp only [run, step, makeMove]
      split_ifs <;> (try dsimp only) <;>
        first
        | exact ⟨hlt, hres, hst, fun hra => by simp [ResolutionAttempt] at hra⟩
        | simp_all
    · have hne : g ≠ gid := fun hh => hgid hh.symm
      simp only [run, step, makeMove]
      split_ifs <;> (try dsimp only) <;>
        first
        | exact ⟨hlt, hres, hst, fun hra => by simp [ResolutionAttempt] at hra⟩
        | exact ⟨hlt, hres, by rw [upd_ne _ _ _ _ hne]; exact hst,
            fun hra => by simp [ResolutionAttempt] at hra⟩
  | submitGameResult c gid res =>
    by_cases hgid : gid = g
    · subst hgid
      simp only [run, step, submitGameResult]
      split_ifs <;> (try dsimp only) <;>
        first
        | exact ⟨hlt, hres, hst, fun hra => ⟨rfl, rfl⟩⟩
        | simp_all
    · have hne : g ≠ gid := fun hh => hgid hh.symm
      simp only [run, step, submitGameResult]
      split_ifs <;> (try dsimp only) <;>
        first
        | exact ⟨hlt, hres, hst, fun hra => absurd (ra_submit_eq _ _ _ _ hra) hgid⟩
        | (split
           · rename_i t heq
             have hf := resolveBets_frame _ _ _ _ heq
             refine ⟨?_, ?_, ?_,
               fun hra => absurd (ra_submit_eq _ _ _ _ hra) hgid⟩
             · rw [hf.1]; exact hlt
             · rw [hf.2.2 g hne]; exact hres
             · rw [hf.2.1]; dsimp only; rw [upd_ne _ _ _ _ hne]; exact hst
           · exact ⟨hlt, hres, hst,
               fun hra => absurd (ra_submit_eq _ _ _ _ hra) hgid⟩)
  | resolveDisputedGame c gid res =>
    by_cases hgid : gid = g
    · subst hgid
      simp only [run, step, resolveDisputedGame]
      split_ifs <;> (try dsimp only) <;>
        first
        | exact ⟨hlt, hres, hst, fun hra => ⟨rfl, rfl⟩⟩
        | simp_all
    · have hne : g ≠ gid := fun hh => hgid hh.symm
      simp only [run, step, resolveDisputedGame]
      split_ifs <;> (try dsimp only) <;>
        first
        | exact ⟨hlt, hres, hst, fun hra => absurd (ra_disputed_eq _ _ _ _ hra) hgid⟩
        | (split
           · rename_i t heq
             have hf := resolveBets_frame _ _ _ _ heq
             refine ⟨?_, ?_, ?_,
               fun hra => absurd (ra_disputed_eq _ _ _ _ hra) hgid⟩
             · rw [hf.1]; exact hlt
             · rw [hf.2.2 g hne]; exact hres
             · rw [hf.2.1]; dsimp only; rw [upd_ne _ _ _ _ hne]; exact hst
           · exact ⟨hlt, hres, hst,
               fun hra => absurd (ra_disputed_eq _ _ _ _ hra) hgid⟩)
  | placeBet c gid amt =>
    by_cases hgid : gid = g
    · subst hgid
      simp only [run, step, placeBet]
      split_ifs <;> (try dsimp only) <;>
        first
        | exact ⟨hlt, hres, hst, fun hra => by simp [ResolutionAttempt] at hra⟩
        | simp_all
    · have hne : g ≠ gid := fun hh => hgid hh.symm
      simp only [run, step, placeBet]
      split_ifs <;> (try dsimp only) <;>
        first
        | exact ⟨hlt, hres, hst, fun hra => by simp [ResolutionAttempt] at hra⟩
        | exact ⟨by rw [(indexPlayerGame_proj _ _ _).2.2.2.2.2.2]; exact hlt,
            by rw [upd_ne _ _ _ _ hne, (indexPlayerGame_proj _ _ _).2.1]; exact hres,
            by rw [upd_ne _ _ _ _ hne, (indexPlayerGame_proj _ _ _).1]; exact hst,
            fun hra => by simp [ResolutionAttempt] at hra⟩
        | exact ⟨by rw [(indexPlayerGame_proj _ _ _).2.2.2.2.2.2]; exact hlt,
            by rw [upd_ne _ _ _ _ hne, (indexPlayerGame_proj _ _ _).2.1]; exact hres,
            by rw [(indexPlayerGame_proj _ _ _).1]; exact hst,
            fun hra => by simp [ResolutionAttempt] at hra⟩
  | claimPayout c ok2 =>
    simp only [run, step, claimPayout, claimZeroedState]
    split_ifs <;> (try dsimp only) <;>
      exact ⟨hlt, hres, hst, fun hra => by simp [ResolutionAttempt] at hra⟩
  | withdrawTokenFees c =>
    simp only [run, step, withdrawTokenFees]
    split_ifs <;> (try dsimp only) <;>
      exact ⟨hlt, hres, hst, fun hra => by simp [ResolutionAttempt] at hra⟩
  | placeOrder c sd tc amt =>
    simp only [run, step, placeOrder]
    split_ifs <;> (try dsimp only) <;>
      first
      | exact ⟨hlt, hres, hst, fun hra => by simp [ResolutionAttempt] at hra⟩
      | (refine ⟨?_, ?_, ?_, fun hra => by simp [ResolutionAttempt] at hra⟩
         · refine (gframe_resolved _ _ g (attemptMatch_gframe _ _) ?_ ?_ ?_).1 <;>
             first | exact Nat.lt_succ_of_lt hlt | exact hres | exact hst
         · refine (gframe_resolved _ _ g (attemptMatch_gframe _ _) ?_ ?_ ?_).2.1 <;>
             first | exact Nat.lt_succ_of_lt hlt | exact hres | exact hst
         · refine (gframe_resolved _ _ g (attemptMatch_gframe _ _) ?_ ?_ ?_).2.2 <;>
             first | exact Nat.lt_succ_of_lt hlt | exact hres | exact hst)
  | cancelOrder c oid =>
    simp only [run, step, cancelOrder]
    split_ifs <;> (try dsimp only) <;>
      exact ⟨hlt, hres, hst, fun hra => by simp [ResolutionAttempt] at hra⟩
  | pauseGame c gid =>
    by_cases hgid : gid = g
    · subst hgid
      simp only [run, step, pauseGame]
      split_ifs <;> (try dsimp only) <;>
        first
        | exact ⟨hlt, hres, hst, fun hra => ⟨rfl, rfl⟩⟩
        | simp_all
    · have hne : g ≠ gid := fun hh => hgid hh.symm
      simp only [run, step, pauseGame]
      split_ifs <;> (try dsimp only) <;>
        first
        | exact ⟨hlt, hres, hst, fun hra => absurd (ra_pauseGame_eq _ _ _ hra) hgid⟩
        | (split
           · rename_i t heq
             split at heq
             · exact absurd heq (by simp)
             · rename_i s2 heq2
               injection heq with hh
               subst hh
               have hf := resolveBets_frame _ _ _ _ heq2
               refine ⟨?_, ?_, ?_,
                 fun hra => absurd (ra_pauseGame_eq _ _ _ hra) hgid⟩
               · dsimp only; rw [hf.1]; exact hlt
               · dsimp only; rw [hf.2.2 g hne]; exact hres
               · dsimp only; rw [upd_ne _ _ _ _ hne, hf.2.1]
                 dsimp only; rw [upd_ne _ _ _ _ hne]; exact hst
           · exact ⟨hlt, hres, hst,
               fun hra => absurd (ra_pauseGame_eq _ _ _ hra) hgid⟩)
        | exact ⟨hlt,
            by rw [upd_ne _ _ _ _ hne]; exact hres,
            by rw [upd_ne _ _ _ _ hne, upd_ne _ _ _ _ hne]; exact hst,
            fun hra => absurd (ra_pauseGame_eq _ _ _ hra) hgid⟩
  | setHouseFeePercentage c v =>
    simp only [run, step, setHouseFeePercentage]
    split_ifs <;> (try dsimp only) <;>
      exact ⟨hlt, hres, hst, fun hra => by simp [ResolutionAttempt] at hra⟩
  | setBettingTierAmounts c lo md =>
    simp only [run, step, setBettingTierAmounts]
    split_ifs <;> (try dsimp only) <;>
      exact ⟨hlt, hres, hst, fun hra => by simp [ResolutionAttempt] at hra⟩
  | pause c =>
    simp only [run, step, pause]
    split_ifs <;> (try dsimp only) <;>
      exact ⟨hlt, hres, hst, fun hra => by simp [ResolutionAttempt] at hra⟩
  | unpause c =>
    simp only [run, step, unpause]
    split_ifs <;> (try dsimp only) <;>
      exact ⟨hlt, hres, hst, fun hra => by simp [ResolutionAttempt] at hra⟩

/-- C3 witness: stakes of 50 and 50 USDC drawn; both players are refunded in
full and the fee accumulator stays 0. -/
theorem draw_refund_invariant_witness :
    (1 : Nat) ≠ 2 ∧ (2 : Nat) ≠ 0 ∧ USDC_UNIT ≤ 50000000 ∧
    ((exec [Op.createGame 1 2 5 2, Op.placeBet 1 1 50000000,
            Op.placeBet 2 1 50000000, Op.submitGameResult 1 1 2,
            Op.submitGameResult 2 1 2]
        { genesis 99 1000 with houseFeePercentage := 500,
                               pendingPayouts := fun _ => 0,
                               tokenFeeBalance := 0 }).pendingPayouts 1 =
      0 + 50000000) := by
  refine ⟨by decide, by decide, by decide, ?_⟩
  have h := draw_refund_invariant 99 1000 1 2 50000000 50000000 500
    (fun _ => 0) 0 (by decide) (by decide) (by decide) (by decide)
  exact h.1

/-- Once a game's pool is resolved and the game finished, the pair survives
any further call sequence. -/
theorem resolved_exec_preserved (ops : List Op) (s : CState) (g : Nat)
    (h : g < s.nextId ∧ (s.bettingPools g).resolved = true ∧
      (s.games g).status = 2) :
    g < (exec ops s).nextId ∧
    ((exec ops s).bettingPools g).resolved = true ∧
    ((exec ops s).games g).status = 2 := by
  induction ops generalizing s with
  | nil => exact h
  | cons op rest ih =>
    have hstep := resolved_step_preserved s g op h.1 h.2.1 h.2.2
    exact ih (run op s) ⟨hstep.1, hstep.2.1, hstep.2.2.1⟩

/-- C2: the pool's resolved flag is monotone (it never flips back under any
further sequence of external calls), and every later resolution attempt on a
resolved finished game is rejected with the state left exactly unchanged, so
no pending-payout balance or bet payout is credited again. -/
theorem resolved_exactly_once (s : CState) (g : Nat) (ops : List Op) (op : Op)
    (hlt : g < s.nextId) (hres : (s.bettingPools g).resolved = true)
    (hst : (s.games g).status = 2) (hra : ResolutionAttempt op g) :
    ((exec ops s).bettingPools g).resolved = true ∧
    exOk (step op (exec ops s)) = false ∧
    run op (exec ops s) = exec ops s := by
  have hp := resolved_exec_preserved ops s g ⟨hlt, hres, hst⟩
  have hstep := resolved_step_preserved (exec ops s) g op hp.1 hp.2.1 hp.2.2
  exact ⟨hp.2.1, (hstep.2.2.2 hra).1, (hstep.2.2.2 hra).2⟩

/-- C2 witness: after the decisive scenario resolves game 1, a repeated
submitGameResult is rejected and changes nothing. -/
theorem resolved_exactly_once_witness :
    (1 < decisiveState.nextId ∧
     (decisiveState.bettingPools 1).resolved = true ∧
     (decisiveState.games 1).status = 2) ∧
    (((exec [] decisiveState).bettingPools 1).resolved = true ∧
     exOk (step (Op.submitGameResult 1 1 0) (exec [] decisiveState)) = false ∧
     run (Op.submitGameResult 1 1 0) (exec [] decisiveState) =
       exec [] decisiveState) :=
  ⟨⟨by decide, by decide, by decide⟩,
   resolved_exactly_once decisiveState 1 [] (Op.submitGameResult 1 1 0)
     (by decide) (by decide) (by decide) (Or.inl ⟨1, 0, rfl⟩)⟩

/-! ### List bookkeeping for the orderbook invariant -/

/-- levelNeed through `contrib`. -/
theorem levelNeed_eq (s : CState) (k : Nat × Nat × Nat) :
    levelNeed s k = ((s.levels k).orderIds.map (contrib s.orders)).sum := rfl

theorem sum_map_mono (l : List Nat) (f g : Nat → Nat)
    (h : ∀ i ∈ l, f i ≤ g i) : (l.map f).sum ≤ (l.map g).sum :=
  List.sum_le_sum h

theorem sum_map_congr (l : List Nat) (f g : Nat → Nat)
    (h : ∀ i ∈ l, f i = g i) : (l.map f).sum = (l.map g).sum := by
  rw [List.map_congr_left h]

/-- Splitting a member out of a queue sum. -/
theorem sum_map_erase (l : List Nat) (x : Nat) (f : Nat → Nat) (hx : x ∈ l) :
    (l.map f).sum = f x + ((l.erase x).map f).sum := by
  simpa using ((List.perm_cons_erase hx).map f).sum_eq

/-- Swap-and-pop of the queue head is a permutation of the tail. -/
theorem swapPopHead_perm (hd : Nat) (t : List Nat) :
    List.Perm (swapPopHead (hd :: t)) t := by
  show List.Perm (match t.getLast? with
    | none => []
    | some lst => lst :: t.dropLast) t
  cases ht : t.getLast? with
  | none =>
    rw [List.getLast?_eq_none_iff.mp ht]
  | some lst =>
    have htne : t ≠ [] := by
      intro hh
      rw [hh] at ht
      exact absurd ht (by simp)
    have hlst : t.getLast htne = lst := by
      rw [List.getLast?_eq_getLast t htne] at ht
      exact Option.some_injective _ ht
    have hdec : t.dropLast ++ [lst] = t := by
      rw [← hlst]
      exact List.dropLast_append_getLast htne
    have h1 : List.Perm (lst :: t.dropLast) (t.dropLast ++ [lst]) :=
      (List.perm_append_singleton _ _).symm
    dsimp only
    exact h1.trans (by rw [hdec])

/-- Swap-and-pop removal of a member is a permutation of erasing it. -/
theorem removeSwap_perm (l : List Nat) (x : Nat) (hx : x ∈ l) :
    List.Perm (removeSwap l x) (l.erase x) := by
  unfold removeSwap
  have hsome : (l.findIdx? (fun y => y == x)).isSome := by
    rw [List.findIdx?_isSome]
    exact List.any_eq_true.mpr ⟨x, hx, by simp⟩
  obtain ⟨i, hi⟩ := Option.isSome_iff_exists.mp hsome
  obtain ⟨hlt, hgx, -⟩ := List.findIdx?_eq_some_iff_getElem.mp hi
  have hxi : l[i] = x := by simpa using hgx
  have hlne : l ≠ [] := List.ne_nil_of_mem hx
  rw [hi, List.getLast?_eq_getLast l hlne]
  dsimp only
  have hset : l.set i (l.getLast hlne) =
      l.take i ++ l.getLast hlne :: l.drop (i + 1) := by
    rw [List.set_eq_take_append_cons_drop, if_pos hlt]
  have hsplit : l.take i ++ x :: l.drop (i + 1) = l := by
    rw [← hxi, ← List.drop_eq_getElem_cons hlt, List.take_append_drop]
  have herase : List.Perm (l.erase x) (l.take i ++ l.drop (i + 1)) := by
    have h1 : List.Perm l (x :: (l.take i ++ l.drop (i + 1))) := by
      conv_lhs => rw [← hsplit]
      exact List.perm_middle
    have h2 : List.Perm l (x :: l.erase x) := List.perm_cons_erase hx
    exact (h2.symm.trans h1).cons_inv
  rw [hset]
  by_cases hB : l.drop (i + 1) = []
  · rw [hB, List.dropLast_concat]
    have := herase.symm
    rw [hB, List.append_nil] at this
    exact this
  · rw [List.dropLast_append_of_ne_nil _ (by simp : l.getLast hlne :: l.drop (i + 1) ≠ []),
      List.dropLast_cons_of_ne_nil hB]
    have hq : l.getLast? = (l.drop (i + 1)).getLast? := by
      have h3 := congrArg List.getLast? hsplit
      rw [List.getLast?_append_of_ne_nil _ (by simp : x :: l.drop (i + 1) ≠ [])] at h3
      have h4 : x :: l.drop (i + 1) = [x] ++ l.drop (i + 1) := by simp
      rw [h4, List.getLast?_append_of_ne_nil _ hB] at h3
      exact h3.symm
    have hlst : l.getLast hlne = (l.drop (i + 1)).getLast hB := by
      rw [List.getLast?_eq_getLast l hlne, List.getLast?_eq_getLast _ hB] at hq
      exact Option.some_injective _ hq
    have hdec : (l.drop (i + 1)).dropLast ++ [l.getLast hlne] = l.drop (i + 1) := by
      rw [hlst]
      exact List.dropLast_append_getLast hB
    have h5 : List.Perm (l.getLast hlne :: (l.drop (i + 1)).dropLast)
        (l.drop (i + 1)) := by
      have h6 : List.Perm (l.getLast hlne :: (l.drop (i + 1)).dropLast)
          ((l.drop (i + 1)).dropLast ++ [l.getLast hlne]) :=
        (List.perm_append_singleton _ _).symm
      exact h6.trans (by rw [hdec])
    exact (h5.append_left (l.take i)).trans herase.symm

/-- Inv only concerns the orderbook stores and the id counter, so any op that
preserves them (never decreasing the counter) preserves Inv. -/
theorem inv_mono (s t : CState) (ho : t.orders = s.orders)
    (hl : t.levels = s.levels) (hn : s.nextId ≤ t.nextId) (h : Inv s) :
    Inv t := by
  refine ⟨le_trans h.nextIdPos hn, ?_, ?_, ?_, ?_, ?_, ?_, ?_, ?_, ?_⟩
  · intro k i hi
    rw [hl] at hi
    have L := h.located k i hi
    rw [ho]
    exact ⟨L.1, L.2.1, lt_of_lt_of_le L.2.2.1 hn, L.2.2.2⟩
  · intro k
    rw [hl]
    exact h.nodup k
  · intro i
    rw [ho]
    exact h.fillLe i
  · intro i
    rw [ho]
    exact h.filledStatus i
  · intro k i hi
    rw [hl] at hi
    rw [ho]
    exact h.noCancelQueued k i hi
  · intro i
    rw [ho]
    exact h.statusLe i
  · intro i h1 h2 h3
    rw [ho] at h2 h3 ⊢
    rw [hl]
    exact h.openQueued i h1 h2 h3
  · intro i hni
    rw [ho] at hni ⊢
    exact h.ordPhantom i hni
  · intro k
    have : levelNeed t k = levelNeed s k := by
      rw [levelNeed_eq, levelNeed_eq, ho, hl]
    rw [this, hl]
    exact h.needLe k

/-- The deployment state satisfies the orderbook invariant. -/
theorem inv_genesis (o t : Nat) : Inv (genesis o t) := by
  refine ⟨le_refl 1, ?_, ?_, ?_, ?_, ?_, ?_, ?_, ?_, ?_⟩ <;>
    intro i <;>
    simp [genesis, zeroLevel, zeroOrder, levelNeed] <;>
    omega

/-- An id queued at two levels pins both levels to the order's attributes. -/
theorem queued_unique (s : CState) (hInv : Inv s) (k k2 : Nat × Nat × Nat)
    (i : Nat) (h1 : i ∈ (s.levels k).orderIds)
    (h2 : i ∈ (s.levels k2).orderIds) : k = k2 := by
  have L1 := hInv.located k i h1
  have L2 := hInv.located k2 i h2
  obtain ⟨a, b, c⟩ := k
  obtain ⟨a2, b2, c2⟩ := k2
  dsimp only at L1 L2
  simp only [Prod.mk.injEq]
  refine ⟨?_, ?_, ?_⟩
  · rw [← L1.2.2.2.1, ← L2.2.2.2.1]
  · rw [← L1.2.2.2.2.1, ← L2.2.2.2.2.1]
  · rw [← L1.2.2.2.2.2, ← L2.2.2.2.2.2]


theorem inv_popHead (s t : CState) (key : Nat × Nat × Nat) (hd : Nat)
    (rest : List Nat)
    (hq : (s.levels key).orderIds = hd :: rest)
    (hfull : (s.orders hd).amount ≤ (s.orders hd).filledAmount)
    (hInv : Inv s)
    (ho : t.orders = upd s.orders hd { s.orders hd with status := 2 })
    (hl : t.levels = upd s.levels key
      { s.levels key with orderIds := swapPopHead (s.levels key).orderIds })
    (hn : t.nextId = s.nextId) : Inv t := by
  have hdmem : hd ∈ (s.levels key).orderIds := by
    rw [hq]
    exact List.mem_cons_self _ _
  have hdr := hInv.located key hd hdmem
  have hnd := hInv.nodup key
  rw [hq] at hnd
  have hdnotin : hd ∉ rest := (List.nodup_cons.mp hnd).1
  have hndrest : rest.Nodup := (List.nodup_cons.mp hnd).2
  have hperm : List.Perm (swapPopHead (hd :: rest)) rest := swapPopHead_perm hd rest
  have hqt : (t.levels key).orderIds = swapPopHead (hd :: rest) := by
    rw [hl]
    simp [upd, hq]
  have hql : ∀ k, ¬k = key → t.levels k = s.levels k := by
    intro k hk
    rw [hl]
    simp [upd, hk]
  have htot : (t.levels key).totalAmount = (s.levels key).totalAmount := by
    rw [hl]
    simp [upd]
  have hoe : ∀ i, ¬i = hd → t.orders i = s.orders i := by
    intro i hih
    rw [ho]
    simp [upd, hih]
  have hohd : t.orders hd = { s.orders hd with status := 2 } := by
    rw [ho]
    simp [upd]
  have hmq : ∀ k i, i ∈ (t.levels k).orderIds → i ∈ (s.levels k).orderIds := by
    intro k i hi
    by_cases hk : k = key
    · subst hk
      rw [hqt] at hi
      rw [hq]
      exact List.mem_cons_of_mem _ (hperm.mem_iff.mp hi)
    · rw [hql k hk] at hi
      exact hi
  refine ⟨?_, ?_, ?_, ?_, ?_, ?_, ?_, ?_, ?_, ?_⟩
  · rw [hn]
    exact hInv.nextIdPos
  · intro k i hi
    have L := hInv.located k i (hmq k i hi)
    by_cases hih : i = hd
    · subst hih
      rw [hohd, hn]
      exact ⟨L.1, L.2.1, L.2.2.1, L.2.2.2⟩
    · rw [hoe i hih, hn]
      exact L
  · intro k
    by_cases hk : k = key
    · subst hk
      rw [hqt]
      exact hperm.symm.nodup hndrest
    · rw [hql k hk]
      exact hInv.nodup k
  · intro i
    by_cases hih : i = hd
    · subst hih
      rw [hohd]
      exact hInv.fillLe _
    · rw [hoe i hih]
      exact hInv.fillLe i
  · intro i hst
    by_cases hih : i = hd
    · subst hih
      rw [hohd]
      exact le_antisymm (hInv.fillLe _) hfull
    · rw [hoe i hih] at hst ⊢
      exact hInv.filledStatus i hst
  · intro k i hi
    by_cases hih : i = hd
    · subst hih
      rw [hohd]
      simp
    · rw [hoe i hih]
      exact hInv.noCancelQueued k i (hmq k i hi)
  · intro i
    by_cases hih : i = hd
    · subst hih
      rw [hohd]
      simp
    · rw [hoe i hih]
      exact hInv.statusLe i
  · intro i h1 h2 h3
    by_cases hih : i = hd
    · subst hih
      rw [hohd] at h3
      simp at h3
    · rw [hoe i hih] at h2 h3 ⊢
      have hmem := hInv.openQueued i h1 h2 h3
      by_cases hk : ((s.orders i).timeControl, (s.orders i).side,
          (s.orders i).tickAmount) = key
      · rw [hk] at hmem ⊢
        rw [hqt]
        rw [hq] at hmem
        rcases List.mem_cons.mp hmem with h | h
        · exact absurd h hih
        · exact hperm.mem_iff.mpr h
      · rw [hql _ hk]
        exact hmem
  · intro i hni
    by_cases hih : i = hd
    · subst hih
      refine absurd ?_ hni
      rw [hohd]
      exact ⟨hdr.1, hdr.2.1⟩
    · rw [hoe i hih] at hni ⊢
      exact hInv.ordPhantom i hni
  · intro k
    by_cases hk : k = key
    · subst hk
      rw [levelNeed_eq, hqt, htot]
      have e1 : ((swapPopHead (hd :: rest)).map (contrib t.orders)).sum =
          (rest.map (contrib t.orders)).sum := (hperm.map _).sum_eq
      have e2 : (rest.map (contrib t.orders)).sum =
          (rest.map (contrib s.orders)).sum := by
        refine sum_map_congr _ _ _ ?_
        intro i hi
        unfold contrib
        rw [hoe i (fun hh => hdnotin (hh ▸ hi))]
      have e3 : (rest.map (contrib s.orders)).sum ≤
          ((hd :: rest).map (contrib s.orders)).sum := by
        simp [Nat.le_add_left]
      rw [e1, e2]
      refine le_trans (le_trans e3 ?_) (hInv.needLe _)
      rw [levelNeed_eq, hq]
    · rw [levelNeed_eq, hql k hk]
      have e4 : ∀ i ∈ (s.levels k).orderIds,
          contrib t.orders i = contrib s.orders i := by
        intro i hi
        have hih : ¬i = hd := by
          intro hh
          subst hh
          exact hk (queued_unique s hInv k key i hi hdmem)
        unfold contrib
        rw [hoe i hih]
      rw [sum_map_congr _ _ _ e4]
      exact hInv.needLe k

theorem inv_fill (s t : CState) (key : Nat × Nat × Nat) (oid hd m : Nat)
    (rest : List Nat)
    (hq : (s.levels key).orderIds = hd :: rest)
    (hInv : Inv s)
    (hid : (s.orders oid).id = oid) (h1o : 1 ≤ oid)
    (hside : ¬ (s.orders oid).side = key.2.1)
    (hm0 : m ≠ 0)
    (hmo : m ≤ (s.orders oid).amount - (s.orders oid).filledAmount)
    (hmh : m ≤ (s.orders hd).amount - (s.orders hd).filledAmount)
    (ho : t.orders = upd (upd s.orders oid
      { s.orders oid with filledAmount := (s.orders oid).filledAmount + m }) hd
      { s.orders hd with filledAmount := (s.orders hd).filledAmount + m })
    (hl : t.levels = upd s.levels key
      { s.levels key with totalAmount := (s.levels key).totalAmount - m })
    (hn : t.nextId = s.nextId + 1) : Inv t := by
  have hdmem : hd ∈ (s.levels key).orderIds := by
    rw [hq]
    exact List.mem_cons_self _ _
  have hdr := hInv.located key hd hdmem
  have hnd := hInv.nodup key
  rw [hq] at hnd
  have hdnotin : hd ∉ rest := (List.nodup_cons.mp hnd).1
  have hdoid : ¬hd = oid := fun hh => hside (hh ▸ hdr.2.2.2.2.1)
  have hoid_hd : ¬oid = hd := fun hh => hdoid hh.symm
  have hdst : (s.orders hd).status = 0 ∨ (s.orders hd).status = 1 := by
    have h3 := hInv.noCancelQueued key hd hdmem
    have h4 := hInv.statusLe hd
    have h5 : ¬(s.orders hd).status = 2 := by
      intro h2
      have h6 := hInv.filledStatus hd h2
      omega
    omega
  have hooid : t.orders oid =
      { s.orders oid with filledAmount := (s.orders oid).filledAmount + m } := by
    rw [ho]
    simp [upd, hoid_hd]
  have hohd : t.orders hd =
      { s.orders hd with filledAmount := (s.orders hd).filledAmount + m } := by
    rw [ho]
    simp [upd]
  have hoe : ∀ i, ¬i = oid → ¬i = hd → t.orders i = s.orders i := by
    intro i h1 h2
    rw [ho]
    simp [upd, h1, h2]
  have hattr : ∀ i, (t.orders i).id = (s.orders i).id ∧
      (t.orders i).status = (s.orders i).status ∧
      (t.orders i).amount = (s.orders i).amount ∧
      (t.orders i).side = (s.orders i).side ∧
      (t.orders i).timeControl = (s.orders i).timeControl ∧
      (t.orders i).tickAmount = (s.orders i).tickAmount := by
    intro i
    by_cases h1 : i = hd
    · rw [h1, hohd]
      exact ⟨rfl, rfl, rfl, rfl, rfl, rfl⟩
    · by_cases h2 : i = oid
      · rw [h2, hooid]
        exact ⟨rfl, rfl, rfl, rfl, rfl, rfl⟩
      · rw [hoe i h2 h1]
        exact ⟨rfl, rfl, rfl, rfl, rfl, rfl⟩
  have hfills : ∀ i, (s.orders i).filledAmount ≤ (t.orders i).filledAmount := by
    intro i
    by_cases h1 : i = hd
    · rw [h1, hohd]
      exact Nat.le_add_right _ _
    · by_cases h2 : i = oid
      · rw [h2, hooid]
        exact Nat.le_add_right _ _
      · rw [hoe i h2 h1]
  have hqall : ∀ k, (t.levels k).orderIds = (s.levels k).orderIds := by
    intro k
    by_cases hk : k = key
    · rw [hk, hl]
      simp [upd]
    · rw [hl]
      simp [upd, hk]
  have htot : (t.levels key).totalAmount = (s.levels key).totalAmount - m := by
    rw [hl]
    simp [upd]
  have hql : ∀ k, ¬k = key → t.levels k = s.levels k := by
    intro k hk
    rw [hl]
    simp [upd, hk]
  have hrest_ne : ∀ i ∈ rest, ¬i = hd ∧ ¬i = oid := by
    intro i hi
    have himem : i ∈ (s.levels key).orderIds := by
      rw [hq]
      exact List.mem_cons_of_mem _ hi
    refine ⟨?_, ?_⟩
    · intro hh
      exact hdnotin (hh ▸ hi)
    · intro hh
      exact hside (hh ▸ (hInv.located key i himem).2.2.2.2.1)
  refine ⟨?_, ?_, ?_, ?_, ?_, ?_, ?_, ?_, ?_, ?_⟩
  · rw [hn]
    exact le_trans hInv.nextIdPos (Nat.le_succ _)
  · intro k i hi
    rw [hqall k] at hi
    have L := hInv.located k i hi
    refine ⟨?_, L.2.1, ?_, ?_, ?_, ?_⟩
    · rw [(hattr i).1]
      exact L.1
    · rw [hn]
      exact Nat.lt_succ_of_lt L.2.2.1
    · rw [(hattr i).2.2.2.2.1]
      exact L.2.2.2.1
    · rw [(hattr i).2.2.2.1]
      exact L.2.2.2.2.1
    · rw [(hattr i).2.2.2.2.2]
      exact L.2.2.2.2.2
  · intro k
    rw [hqall k]
    exact hInv.nodup k
  · intro i
    by_cases h1 : i = hd
    · rw [h1, hohd]
      have h7 := hInv.fillLe hd
      show (s.orders hd).filledAmount + m ≤ (s.orders hd).amount
      omega
    · by_cases h2 : i = oid
      · rw [h2, hooid]
        have h7 := hInv.fillLe oid
        show (s.orders oid).filledAmount + m ≤ (s.orders oid).amount
        omega
      · rw [hoe i h2 h1]
        exact hInv.fillLe i
  · intro i hst
    rw [(hattr i).2.1] at hst
    by_cases h1 : i = hd
    · rw [h1] at hst
      rcases hdst with h | h <;> omega
    · by_cases h2 : i = oid
      · have h6 := hInv.filledStatus i hst
        rw [h2] at h6
        omega
      · rw [hoe i h2 h1]
        exact hInv.filledStatus i hst
  · intro k i hi
    rw [hqall k] at hi
    rw [(hattr i).2.1]
    exact hInv.noCancelQueued k i hi
  · intro i
    rw [(hattr i).2.1]
    exact hInv.statusLe i
  · intro i h1 h2 h3
    rw [(hattr i).1] at h2
    rw [(hattr i).2.1] at h3
    rw [(hattr i).2.2.2.2.1, (hattr i).2.2.2.1, (hattr i).2.2.2.2.2, hqall]
    exact hInv.openQueued i h1 h2 h3
  · intro i hni
    rw [(hattr i).1] at hni
    by_cases h1 : i = hd
    · rw [h1] at hni
      exact absurd ⟨hdr.1, hdr.2.1⟩ hni
    · by_cases h2 : i = oid
      · rw [h2] at hni
        exact absurd ⟨hid, h1o⟩ hni
      · have h8 := hInv.ordPhantom i hni
        rw [hoe i h2 h1]
        exact h8
  · intro k
    by_cases hk : k = key
    · subst hk
      have hst1 : (s.orders hd).status ≤ 1 := by omega
      have hstt : (t.orders hd).status ≤ 1 := by
        rw [(hattr hd).2.1]
        exact hst1
      have hc : contrib s.orders hd =
          (s.orders hd).amount - (s.orders hd).filledAmount := by
        unfold contrib
        rw [if_pos hst1]
      have hfl : (t.orders hd).filledAmount = (s.orders hd).filledAmount + m := by
        rw [hohd]
      have hct : contrib t.orders hd =
          (s.orders hd).amount - ((s.orders hd).filledAmount + m) := by
        unfold contrib
        rw [if_pos hstt, (hattr hd).2.2.1, hfl]
      have e_rest : (rest.map (contrib t.orders)).sum =
          (rest.map (contrib s.orders)).sum := by
        refine sum_map_congr _ _ _ ?_
        intro i hi
        unfold contrib
        rw [hoe i (hrest_ne i hi).2 (hrest_ne i hi).1]
      have e_need_t : levelNeed t k =
          contrib t.orders hd + (rest.map (contrib t.orders)).sum := by
        rw [levelNeed_eq, hqall, hq]
        simp
      have e_need_s : levelNeed s k =
          contrib s.orders hd + (rest.map (contrib s.orders)).sum := by
        rw [levelNeed_eq, hq]
        simp
      have hns := hInv.needLe k
      rw [e_need_t, e_rest, htot]
      rw [e_need_s] at hns
      omega
    · have hdec : ∀ i, contrib t.orders i ≤ contrib s.orders i := by
        intro i
        unfold contrib
        rw [(hattr i).2.1, (hattr i).2.2.1]
        have h9 := hfills i
        split_ifs
        · omega
        · exact le_refl 0
      have e5 : levelNeed t k = ((s.levels k).orderIds.map (contrib t.orders)).sum := by
        rw [levelNeed_eq, hqall]
      rw [e5, hql k hk]
      exact le_trans (sum_map_mono _ _ _ (fun i _ => hdec i)) (hInv.needLe k)

theorem inv_fillStatus (s t : CState) (oid : Nat)
    (hInv : Inv s)
    (hfull : (s.orders oid).amount ≤ (s.orders oid).filledAmount)
    (ho : t.orders = upd s.orders oid { s.orders oid with status := 2 })
    (hl : t.levels = s.levels) (hn : t.nextId = s.nextId) : Inv t := by
  have hoo : t.orders oid = { s.orders oid with status := 2 } := by
    rw [ho]
    simp [upd]
  have hoe : ∀ i, ¬i = oid → t.orders i = s.orders i := by
    intro i h1
    rw [ho]
    simp [upd, h1]
  have hattr : ∀ i, (t.orders i).id = (s.orders i).id ∧
      (t.orders i).amount = (s.orders i).amount ∧
      (t.orders i).filledAmount = (s.orders i).filledAmount ∧
      (t.orders i).side = (s.orders i).side ∧
      (t.orders i).timeControl = (s.orders i).timeControl ∧
      (t.orders i).tickAmount = (s.orders i).tickAmount := by
    intro i
    by_cases h1 : i = oid
    · rw [h1, hoo]
      exact ⟨rfl, rfl, rfl, rfl, rfl, rfl⟩
    · rw [hoe i h1]
      exact ⟨rfl, rfl, rfl, rfl, rfl, rfl⟩
  refine ⟨?_, ?_, ?_, ?_, ?_, ?_, ?_, ?_, ?_, ?_⟩
  · rw [hn]
    exact hInv.nextIdPos
  · intro k i hi
    rw [hl] at hi
    have L := hInv.located k i hi
    refine ⟨?_, L.2.1, ?_, ?_, ?_, ?_⟩
    · rw [(hattr i).1]
      exact L.1
    · rw [hn]
      exact L.2.2.1
    · rw [(hattr i).2.2.2.2.1]
      exact L.2.2.2.1
    · rw [(hattr i).2.2.2.1]
      exact L.2.2.2.2.1
    · rw [(hattr i).2.2.2.2.2]
      exact L.2.2.2.2.2
  · intro k
    rw [hl]
    exact hInv.nodup k
  · intro i
    rw [(hattr i).2.2.1, (hattr i).2.1]
    exact hInv.fillLe i
  · intro i hst
    rw [(hattr i).2.2.1, (hattr i).2.1]
    by_cases h1 : i = oid
    · rw [h1]
      exact le_antisymm (hInv.fillLe _) hfull
    · rw [hoe i h1] at hst
      exact hInv.filledStatus i hst
  · intro k i hi
    rw [hl] at hi
    by_cases h1 : i = oid
    · rw [h1, hoo]
      simp
    · rw [hoe i h1]
      exact hInv.noCancelQueued k i hi
  · intro i
    by_cases h1 : i = oid
    · rw [h1, hoo]
      simp
    · rw [hoe i h1]
      exact hInv.statusLe i
  · intro i h1 h2 h3
    by_cases h4 : i = oid
    · rw [h4, hoo] at h3
      simp at h3
    · rw [hoe i h4] at h2 h3
      rw [(hattr i).2.2.2.2.1, (hattr i).2.2.2.1, (hattr i).2.2.2.2.2, hl]
      exact hInv.openQueued i h1 h2 h3
  · intro i hni
    rw [(hattr i).1] at hni
    have h8 := hInv.ordPhantom i hni
    rw [(hattr i).2.1, (hattr i).2.2.1]
    exact h8
  · intro k
    have hdec : ∀ i, contrib t.orders i ≤ contrib s.orders i := by
      intro i
      unfold contrib
      by_cases h1 : i = oid
      · rw [h1, hoo]
        split_ifs with hc1 hc2
        · simp at hc1
        · simp at hc1
        · exact Nat.zero_le _
        · exact le_refl 0
      · rw [hoe i h1]
    have e5 : levelNeed t k = ((s.levels k).orderIds.map (contrib t.orders)).sum := by
      rw [levelNeed_eq, hl]
    rw [e5, hl]
    exact le_trans (sum_map_mono _ _ _ (fun i _ => hdec i)) (hInv.needLe k)

theorem inv_partialStatus (s t : CState) (oid : Nat)
    (hInv : Inv s)
    (hst : (s.orders oid).status ≤ 1)
    (ho : t.orders = upd s.orders oid { s.orders oid with status := 1 })
    (hl : t.levels = s.levels) (hn : t.nextId = s.nextId) : Inv t := by
  have hoo : t.orders oid = { s.orders oid with status := 1 } := by
    rw [ho]
    simp [upd]
  have hoe : ∀ i, ¬i = oid → t.orders i = s.orders i := by
    intro i h1
    rw [ho]
    simp [upd, h1]
  have hattr : ∀ i, (t.orders i).id = (s.orders i).id ∧
      (t.orders i).amount = (s.orders i).amount ∧
      (t.orders i).filledAmount = (s.orders i).filledAmount ∧
      (t.orders i).side = (s.orders i).side ∧
      (t.orders i).timeControl = (s.orders i).timeControl ∧
      (t.orders i).tickAmount = (s.orders i).tickAmount := by
    intro i
    by_cases h1 : i = oid
    · rw [h1, hoo]
      exact ⟨rfl, rfl, rfl, rfl, rfl, rfl⟩
    · rw [hoe i h1]
      exact ⟨rfl, rfl, rfl, rfl, rfl, rfl⟩
  refine ⟨?_, ?_, ?_, ?_, ?_, ?_, ?_, ?_, ?_, ?_⟩
  · rw [hn]
    exact hInv.nextIdPos
  · intro k i hi
    rw [hl] at hi
    have L := hInv.located k i hi
    refine ⟨?_, L.2.1, ?_, ?_, ?_, ?_⟩
    · rw [(hattr i).1]
      exact L.1
    · rw [hn]
      exact L.2.2.1
    · rw [(hattr i).2.2.2.2.1]
      exact L.2.2.2.1
    · rw [(hattr i).2.2.2.1]
      exact L.2.2.2.2.1
    · rw [(hattr i).2.2.2.2.2]
      exact L.2.2.2.2.2
  · intro k
    rw [hl]
    exact hInv.nodup k
  · intro i
    rw [(hattr i).2.2.1, (hattr i).2.1]
    exact hInv.fillLe i
  · intro i hst2
    rw [(hattr i).2.2.1, (hattr i).2.1]
    by_cases h1 : i = oid
    · rw [h1, hoo] at hst2
      simp at hst2
    · rw [hoe i h1] at hst2
      exact hInv.filledStatus i hst2
  · intro k i hi
    rw [hl] at hi
    by_cases h1 : i = oid
    · rw [h1, hoo]
      simp
    · rw [hoe i h1]
      exact hInv.noCancelQueued k i hi
  · intro i
    by_cases h1 : i = oid
    · rw [h1, hoo]
      simp
    · rw [hoe i h1]
      exact hInv.statusLe i
  · intro i h1 h2 h3
    rw [(hattr i).2.2.2.2.1, (hattr i).2.2.2.1, (hattr i).2.2.2.2.2, hl]
    by_cases h4 : i = oid
    · rw [h4] at h1 h2 ⊢
      rw [(hattr oid).1] at h2
      exact hInv.openQueued oid h1 h2 hst
    · rw [hoe i h4] at h2 h3
      exact hInv.openQueued i h1 h2 h3
  · intro i hni
    rw [(hattr i).1] at hni
    have h8 := hInv.ordPhantom i hni
    rw [(hattr i).2.1, (hattr i).2.2.1]
    exact h8
  · intro k
    have heqc : ∀ i, contrib t.orders i = contrib s.orders i := by
      intro i
      unfold contrib
      by_cases h1 : i = oid
      · rw [h1, hoo]
        have hc1 : ({ s.orders oid with status := 1 } : Order).status ≤ 1 := by
          simp
        rw [if_pos hc1, if_pos hst]
      · rw [hoe i h1]
    have e5 : levelNeed t k = ((s.levels k).orderIds.map (contrib t.orders)).sum := by
      rw [levelNeed_eq, hl]
    rw [e5, hl, sum_map_congr _ _ _ (fun i _ => heqc i)]
    exact hInv.needLe k

theorem popState_orders_ne (s : CState) (hd : Nat) (key : Nat × Nat × Nat)
    (i : Nat) (h : ¬i = hd) : (popState s hd key).orders i = s.orders i := by
  simp [popState, upd, h]

theorem inv_popState (s : CState) (key : Nat × Nat × Nat) (hd : Nat)
    (rest : List Nat) (hq : (s.levels key).orderIds = hd :: rest)
    (hfull : (s.orders hd).amount ≤ (s.orders hd).filledAmount)
    (hInv : Inv s) : Inv (popState s hd key) :=
  inv_popHead s _ key hd rest hq hfull hInv rfl rfl rfl

theorem fillState_orders (s : CState) (oid hd : Nat) (key : Nat × Nat × Nat)
    (m : Nat) (hne : ¬hd = oid) :
    (fillState s oid hd key m).orders = upd (upd s.orders oid
      ({ s.orders oid with
         filledAmount := (s.orders oid).filledAmount + m })) hd
      ({ s.orders hd with
         filledAmount := (s.orders hd).filledAmount + m }) := by
  funext i
  unfold fillState
  dsimp only
  rw [createMatch_orders]
  by_cases h1 : i = hd <;> by_cases h2 : i = oid <;>
    simp [upd, h1, h2, hne]

theorem fillState_levels (s : CState) (oid hd : Nat) (key : Nat × Nat × Nat)
    (m : Nat) :
    (fillState s oid hd key m).levels = upd s.levels key
      ({ s.levels key with
         totalAmount := (s.levels key).totalAmount - m }) := by
  unfold fillState
  dsimp only
  rw [createMatch_levels]

theorem fillState_nextId (s : CState) (oid hd : Nat) (key : Nat × Nat × Nat)
    (m : Nat) : (fillState s oid hd key m).nextId = s.nextId + 1 := by
  unfold fillState
  dsimp only
  rw [createMatch_nextId]

theorem inv_fillState (s : CState) (key : Nat × Nat × Nat) (oid hd m : Nat)
    (rest : List Nat)
    (hq : (s.levels key).orderIds = hd :: rest)
    (hInv : Inv s)
    (hid : (s.orders oid).id = oid) (h1o : 1 ≤ oid)
    (hside : ¬(s.orders oid).side = key.2.1)
    (hm0 : m ≠ 0)
    (hmo : m ≤ (s.orders oid).amount - (s.orders oid).filledAmount)
    (hmh : m ≤ (s.orders hd).amount - (s.orders hd).filledAmount) :
    Inv (fillState s oid hd key m) := by
  have hdmem : hd ∈ (s.levels key).orderIds := by
    rw [hq]
    exact List.mem_cons_self _ _
  have hne : ¬hd = oid :=
    fun hh => hside (hh ▸ (hInv.located key hd hdmem).2.2.2.2.1)
  exact inv_fill s _ key oid hd m rest hq hInv hid h1o hside hm0 hmo hmh
    (fillState_orders s oid hd key m hne) (fillState_levels s oid hd key m)
    (fillState_nextId s oid hd key m)

theorem fillState_orders_oid (s : CState) (oid hd : Nat)
    (key : Nat × Nat × Nat) (m : Nat) (hne : ¬hd = oid) :
    (fillState s oid hd key m).orders oid =
      { s.orders oid with
        filledAmount := (s.orders oid).filledAmount + m } := by
  rw [fillState_orders s oid hd key m hne]
  have h2 : ¬oid = hd := fun hh => hne hh.symm
  simp [upd, h2]

theorem setStatusState_orders_oid (s : CState) (oid st : Nat) :
    (setStatusState s oid st).orders oid =
      { s.orders oid with status := st } := by
  simp [setStatusState, upd]

theorem inv_setStatus2 (s : CState) (oid : Nat) (hInv : Inv s)
    (hfull : (s.orders oid).amount ≤ (s.orders oid).filledAmount) :
    Inv (setStatusState s oid 2) :=
  inv_fillStatus s _ oid hInv hfull rfl rfl rfl

theorem inv_setStatus1 (s : CState) (oid : Nat) (hInv : Inv s)
    (hst : (s.orders oid).status ≤ 1) :
    Inv (setStatusState s oid 1) :=
  inv_partialStatus s _ oid hInv hst rfl rfl rfl

theorem inv_matchLoop (oid : Nat) (key : Nat × Nat × Nat) (fuel : Nat) :
    ∀ (s : CState) (remaining : Nat),
    Inv s → (s.orders oid).id = oid → 1 ≤ oid →
    ¬(s.orders oid).side = key.2.1 →
    remaining ≤ (s.orders oid).amount - (s.orders oid).filledAmount →
    Inv (matchLoop oid key fuel s remaining) ∧
    ((matchLoop oid key fuel s remaining).orders oid).id = oid ∧
    ((matchLoop oid key fuel s remaining).orders oid).side =
      (s.orders oid).side ∧
    ((matchLoop oid key fuel s remaining).orders oid).status =
      (s.orders oid).status := by
  induction fuel with
  | zero =>
    intro s remaining hInv hid h1o hside hrem
    exact ⟨hInv, hid, rfl, rfl⟩
  | succ fuel ih =>
    intro s remaining hInv hid h1o hside hrem
    by_cases h0 : remaining = 0
    · simp only [matchLoop, if_pos h0]
      refine ⟨hInv, hid, ?_, ?_⟩ <;> trivial
    · cases hq : (s.levels key).orderIds with
      | nil =>
        simp only [matchLoop, if_neg h0, hq]
        refine ⟨hInv, hid, ?_, ?_⟩ <;> trivial
      | cons hd rest =>
        simp only [matchLoop, if_neg h0, hq]
        have hdmem : hd ∈ (s.levels key).orderIds := by
          rw [hq]
          exact List.mem_cons_self _ _
        have hdr := hInv.located key hd hdmem
        have hdoid : ¬hd = oid := fun hh => hside (hh ▸ hdr.2.2.2.2.1)
        have hoid_hd : ¬oid = hd := fun hh => hdoid hh.symm
        by_cases hm : min remaining
            ((s.orders hd).amount - (s.orders hd).filledAmount) = 0
        · rw [if_pos hm]
          by_cases hopp : (s.orders hd).amount - (s.orders hd).filledAmount = 0
          · rw [if_pos hopp, ← hq]
            have hfull : (s.orders hd).amount ≤ (s.orders hd).filledAmount := by
              omega
            have hI1 := inv_popState s key hd rest hq hfull hInv
            have hone : (popState s hd key).orders oid = s.orders oid :=
              popState_orders_ne s hd key oid hoid_hd
            obtain ⟨hA, hB, hC, hD⟩ := ih (popState s hd key) remaining hI1
              (by rw [hone]; exact hid) h1o (by rw [hone]; exact hside)
              (by rw [hone]; exact hrem)
            refine ⟨hA, hB, ?_, ?_⟩
            · exact hC.trans (congrArg Order.side hone)
            · exact hD.trans (congrArg Order.status hone)
          · rw [if_neg hopp]
            refine ⟨hInv, hid, ?_, ?_⟩ <;> trivial
        · rw [if_neg hm]
          generalize hMg : min remaining
            ((s.orders hd).amount - (s.orders hd).filledAmount) = M
          rw [hMg] at hm
          have hmo : M ≤ (s.orders oid).amount - (s.orders oid).filledAmount := by
            rw [← hMg]
            exact le_trans (min_le_left _ _) hrem
          have hmh : M ≤ (s.orders hd).amount - (s.orders hd).filledAmount := by
            rw [← hMg]
            exact min_le_right _ _
          have hI4 := inv_fillState s key oid hd M rest hq hInv hid h1o hside
            hm hmo hmh
          have ho4 : (fillState s oid hd key M).orders oid =
              { s.orders oid with
                filledAmount := (s.orders oid).filledAmount + M } :=
            fillState_orders_oid s oid hd key M hdoid
          have hid4 : ((fillState s oid hd key M).orders oid).id = oid := by
            rw [ho4]
            exact hid
          have hside4 : ¬((fillState s oid hd key M).orders oid).side =
              key.2.1 := by
            rw [ho4]
            exact hside
          have hrem4 : remaining - M ≤
              ((fillState s oid hd key M).orders oid).amount -
              ((fillState s oid hd key M).orders oid).filledAmount := by
            rw [ho4]
            show remaining - M ≤
              (s.orders oid).amount - ((s.orders oid).filledAmount + M)
            omega
          split_ifs with hfull5
          · have hq4 : ((fillState s oid hd key M).levels key).orderIds =
                hd :: rest := by
              rw [fillState_levels]
              simp [upd, hq]
            have hI5 := inv_popState (fillState s oid hd key M) key hd rest
              hq4 hfull5 hI4
            have hone5 : (popState (fillState s oid hd key M) hd key).orders oid =
                (fillState s oid hd key M).orders oid :=
              popState_orders_ne _ hd key oid hoid_hd
            obtain ⟨hA, hB, hC, hD⟩ := ih
              (popState (fillState s oid hd key M) hd key) (remaining - M) hI5
              (by rw [hone5]; exact hid4) h1o
              (by rw [hone5]; exact hside4) (by rw [hone5]; exact hrem4)
            refine ⟨hA, hB, ?_, ?_⟩
            · exact hC.trans ((congrArg Order.side hone5).trans
                ((congrArg Order.side ho4).trans rfl))
            · exact hD.trans ((congrArg Order.status hone5).trans
                ((congrArg Order.status ho4).trans rfl))
          · obtain ⟨hA, hB, hC, hD⟩ := ih (fillState s oid hd key M)
              (remaining - M) hI4 hid4 h1o hside4 hrem4
            refine ⟨hA, hB, ?_, ?_⟩
            · exact hC.trans ((congrArg Order.side ho4).trans rfl)
            · exact hD.trans ((congrArg Order.status ho4).trans rfl)

theorem inv_matchAtLevel (s : CState) (oid : Nat) (key : Nat × Nat × Nat)
    (maxAmount : Nat) (hInv : Inv s) (hid : (s.orders oid).id = oid)
    (h1o : 1 ≤ oid) (hside : ¬(s.orders oid).side = key.2.1)
    (hst : (s.orders oid).status ≤ 1) :
    Inv (matchAtLevel s oid key maxAmount) ∧
    ((matchAtLevel s oid key maxAmount).orders oid).id = oid ∧
    ((matchAtLevel s oid key maxAmount).orders oid).side =
      (s.orders oid).side ∧
    (0 < ((matchAtLevel s oid key maxAmount).orders oid).amount -
        ((matchAtLevel s oid key maxAmount).orders oid).filledAmount →
      ((matchAtLevel s oid key maxAmount).orders oid).status ≤ 1) := by
  obtain ⟨hI1, hid1, hside1, hst1⟩ := inv_matchLoop oid key
    ((s.levels key).orderIds.length +
      min maxAmount ((s.orders oid).amount - (s.orders oid).filledAmount) + 1)
    s (min maxAmount ((s.orders oid).amount - (s.orders oid).filledAmount))
    hInv hid h1o hside (min_le_right _ _)
  unfold matchAtLevel
  dsimp only
  generalize hS : matchLoop oid key
    ((s.levels key).orderIds.length +
      min maxAmount ((s.orders oid).amount - (s.orders oid).filledAmount) + 1)
    s (min maxAmount ((s.orders oid).amount - (s.orders oid).filledAmount)) = S1
  rw [hS] at hI1 hid1 hside1 hst1
  split_ifs with hf1 hf2
  · have he := setStatusState_orders_oid S1 oid 2
    refine ⟨inv_setStatus2 S1 oid hI1 hf1, ?_, ?_, ?_⟩
    · exact ((congrArg Order.id he).trans rfl).trans hid1
    · exact ((congrArg Order.side he).trans rfl).trans hside1
    · show 0 < ((setStatusState S1 oid 2).orders oid).amount -
          ((setStatusState S1 oid 2).orders oid).filledAmount →
        ((setStatusState S1 oid 2).orders oid).status ≤ 1
      rw [he]
      dsimp only
      intro hpos
      omega
  · have he := setStatusState_orders_oid S1 oid 1
    have hstS1 : (S1.orders oid).status ≤ 1 := by
      rw [hst1]
      exact hst
    refine ⟨inv_setStatus1 S1 oid hI1 hstS1, ?_, ?_, ?_⟩
    · exact ((congrArg Order.id he).trans rfl).trans hid1
    · exact ((congrArg Order.side he).trans rfl).trans hside1
    · show 0 < ((setStatusState S1 oid 1).orders oid).amount -
          ((setStatusState S1 oid 1).orders oid).filledAmount →
        ((setStatusState S1 oid 1).orders oid).status ≤ 1
      rw [he]
      dsimp only
      intro hpos
      exact le_refl 1
  · refine ⟨hI1, hid1, hside1, fun hpos => ?_⟩
    rw [hst1]
    exact hst

theorem inv_ascendLoop (oid tc opp ts maxTick : Nat) (fuel : Nat) :
    ∀ (s : CState) (tick remaining : Nat),
    Inv s → (s.orders oid).id = oid → 1 ≤ oid →
    ¬(s.orders oid).side = opp →
    (0 < remaining → (s.orders oid).status ≤ 1) →
    Inv (ascendLoop oid tc opp ts maxTick fuel s tick remaining).1 ∧
    ((ascendLoop oid tc opp ts maxTick fuel s tick remaining).1.orders oid).id
      = oid ∧
    ¬((ascendLoop oid tc opp ts maxTick fuel s tick remaining).1.orders
      oid).side = opp ∧
    (0 < (ascendLoop oid tc opp ts maxTick fuel s tick remaining).2 →
      ((ascendLoop oid tc opp ts maxTick fuel s tick
        remaining).1.orders oid).status ≤ 1) := by
  induction fuel with
  | zero =>
    intro s tick remaining hInv hid h1o hside hst
    exact ⟨hInv, hid, hside, hst⟩
  | succ fuel ih =>
    intro s tick remaining hInv hid h1o hside hst
    simp only [ascendLoop]
    split_ifs with hg hl
    · obtain ⟨hI1, hid1, hside1, hst1⟩ := inv_matchAtLevel s oid
        (tc, opp, tick) remaining hInv hid h1o hside (hst hg.2)
      exact ih (matchAtLevel s oid (tc, opp, tick) remaining) (tick + ts)
        (((matchAtLevel s oid (tc, opp, tick) remaining).orders oid).amount -
         ((matchAtLevel s oid (tc, opp, tick) remaining).orders
           oid).filledAmount)
        hI1 hid1 h1o (fun hh => hside (hside1.symm.trans hh)) hst1
    · exact ih s (tick + ts) remaining hInv hid h1o hside hst
    · exact ⟨hInv, hid, hside, hst⟩

theorem inv_descendLoop (oid tc opp ts minTick : Nat) (fuel : Nat) :
    ∀ (s : CState) (tick remaining : Nat),
    Inv s → (s.orders oid).id = oid → 1 ≤ oid →
    ¬(s.orders oid).side = opp →
    (0 < remaining → (s.orders oid).status ≤ 1) →
    Inv (descendLoop oid tc opp ts minTick fuel s tick remaining) := by
  induction fuel with
  | zero =>
    intro s tick remaining hInv hid h1o hside hst
    exact hInv
  | succ fuel ih =>
    intro s tick remaining hInv hid h1o hside hst
    simp only [descendLoop]
    split_ifs with hg hl h2 h3 <;>
      first
      | exact hInv
      | exact (inv_matchAtLevel s oid (tc, opp, tick) remaining hInv hid h1o
          hside (hst hg.2)).1
      | (obtain ⟨hI1, hid1, hside1, hst1⟩ := inv_matchAtLevel s oid
           (tc, opp, tick) remaining hInv hid h1o hside (hst hg.2)
         exact ih _ (tick - ts) _ hI1 hid1 h1o
           (fun hh => hside (hside1.symm.trans hh)) hst1)
      | exact ih s (tick - ts) remaining hInv hid h1o hside hst

theorem inv_matchNearestLevels (s : CState) (oid opp maxAmount : Nat)
    (hInv : Inv s) (hid : (s.orders oid).id = oid) (h1o : 1 ≤ oid)
    (hside : ¬(s.orders oid).side = opp)
    (hst : (s.orders oid).status ≤ 1) :
    Inv (matchNearestLevels s oid opp maxAmount) := by
  unfold matchNearestLevels
  dsimp only
  obtain ⟨hI, hid2, hside2, hst2⟩ := inv_ascendLoop oid
    (s.orders oid).timeControl opp s.tickSize
    ((s.orders oid).tickAmount +
      (s.orders oid).tickAmount * s.tolerancePercentage / 100)
    ((s.orders oid).tickAmount +
      (s.orders oid).tickAmount * s.tolerancePercentage / 100 + 1)
    s ((s.orders oid).tickAmount + s.tickSize) maxAmount
    hInv hid h1o hside (fun _ => hst)
  split_ifs with hts
  · exact inv_descendLoop oid (s.orders oid).timeControl opp s.tickSize _ _
      _ _ _ hI hid2 h1o hside2 hst2
  · exact hI

theorem inv_attemptMatchTail (s : CState) (oid opp : Nat) (hInv : Inv s)
    (hid : (s.orders oid).id = oid) (h1o : 1 ≤ oid)
    (hst0 : (s.orders oid).status = 0)
    (hside : ¬(s.orders oid).side = opp) :
    Inv (attemptMatchTail s oid opp) := by
  unfold attemptMatchTail
  dsimp only
  split_ifs with hA hB hC hD hE <;>
    first
    | exact hInv
    | exact (inv_matchAtLevel s oid
        ((s.orders oid).timeControl, opp, (s.orders oid).tickAmount)
        ((s.orders oid).amount - (s.orders oid).filledAmount)
        hInv hid h1o hside (by omega)).1
    | (obtain ⟨hI1, hid1, hside1, hst1⟩ := inv_matchAtLevel s oid
         ((s.orders oid).timeControl, opp, (s.orders oid).tickAmount)
         ((s.orders oid).amount - (s.orders oid).filledAmount)
         hInv hid h1o hside (by omega)
       exact inv_matchNearestLevels _ oid opp _ hI1 hid1 h1o
         (fun hh => hside (hside1.symm.trans hh)) (by omega))
    | exact inv_matchNearestLevels s oid opp _ hInv hid h1o hside (by omega)

theorem inv_attemptMatch (s : CState) (oid : Nat) (hInv : Inv s)
    (hid : (s.orders oid).id = oid) (h1o : 1 ≤ oid) :
    Inv (attemptMatch s oid) := by
  unfold attemptMatch
  dsimp only
  by_cases h1 : (s.orders oid).status ≠ 0
  · rw [if_pos h1]
    exact hInv
  · rw [if_neg h1]
    have hst0 : (s.orders oid).status = 0 := not_not.mp h1
    by_cases hsd : (s.orders oid).side = 0
    · rw [if_pos hsd]
      exact inv_attemptMatchTail s oid 1 hInv hid h1o hst0
        (by rw [hsd]; decide)
    · rw [if_neg hsd]
      exact inv_attemptMatchTail s oid 0 hInv hid h1o hst0 hsd

theorem removeSwap_not_mem (l : List Nat) (x : Nat) (hx : x ∉ l) :
    removeSwap l x = l := by
  unfold removeSwap
  have hnone : l.findIdx? (fun y => y == x) = none := by
    rw [List.findIdx?_eq_none_iff]
    intro y hy
    by_cases hyx : y = x
    · exact absurd (hyx ▸ hy) hx
    · simp [hyx]
  rw [hnone]

/-- Writing status 3 to an order queued nowhere keeps the invariant. -/
theorem inv_setStatus3_unqueued (s t : CState) (oid : Nat) (hInv : Inv s)
    (hnq : ∀ k, oid ∉ (s.levels k).orderIds)
    (ho : t.orders = upd s.orders oid { s.orders oid with status := 3 })
    (hl : t.levels = s.levels) (hn : t.nextId = s.nextId) : Inv t := by
  have hoo : t.orders oid = { s.orders oid with status := 3 } := by
    rw [ho]
    simp [upd]
  have hoe : ∀ i, ¬i = oid → t.orders i = s.orders i := by
    intro i h1
    rw [ho]
    simp [upd, h1]
  have hne : ∀ k i, i ∈ (s.levels k).orderIds → ¬i = oid := by
    intro k i hi hh
    exact hnq k (hh ▸ hi)
  refine ⟨?_, ?_, ?_, ?_, ?_, ?_, ?_, ?_, ?_, ?_⟩
  · rw [hn]
    exact hInv.nextIdPos
  · intro k i hi
    rw [hl] at hi
    have L := hInv.located k i hi
    rw [hoe i (hne k i hi), hn]
    exact L
  · intro k
    rw [hl]
    exact hInv.nodup k
  · intro i
    by_cases h1 : i = oid
    · rw [h1, hoo]
      exact hInv.fillLe _
    · rw [hoe i h1]
      exact hInv.fillLe i
  · intro i hst
    by_cases h1 : i = oid
    · rw [h1, hoo] at hst
      simp at hst
    · rw [hoe i h1] at hst ⊢
      exact hInv.filledStatus i hst
  · intro k i hi
    rw [hl] at hi
    rw [hoe i (hne k i hi)]
    exact hInv.noCancelQueued k i hi
  · intro i
    by_cases h1 : i = oid
    · rw [h1, hoo]
    · rw [hoe i h1]
      exact hInv.statusLe i
  · intro i h1 h2 h3
    by_cases h4 : i = oid
    · rw [h4, hoo] at h3
      simp at h3
    · rw [hoe i h4] at h2 h3 ⊢
      rw [hl]
      exact hInv.openQueued i h1 h2 h3
  · intro i hni
    by_cases h1 : i = oid
    · rw [h1, hoo] at hni ⊢
      have h5 : ¬((s.orders oid).id = oid ∧ 1 ≤ oid) := by
        intro hh
        exact hni ⟨hh.1, hh.2⟩
      have h6 := hInv.ordPhantom oid h5
      exact h6
    · rw [hoe i h1] at hni ⊢
      exact hInv.ordPhantom i hni
  · intro k
    have heqc : ∀ i ∈ (s.levels k).orderIds,
        contrib t.orders i = contrib s.orders i := by
      intro i hi
      unfold contrib
      rw [hoe i (hne k i hi)]
    rw [levelNeed_eq, hl, sum_map_congr _ _ _ heqc]
    exact hInv.needLe k

/-- cancelOrder's state write keeps the invariant. -/
theorem inv_cancel (s t : CState) (oid : Nat) (hInv : Inv s)
    (hst01 : (s.orders oid).status = 0 ∨ (s.orders oid).status = 1)
    (ho : t.orders = upd s.orders oid { s.orders oid with status := 3 })
    (hl : t.levels = upd s.levels
      ((s.orders oid).timeControl, (s.orders oid).side,
        (s.orders oid).tickAmount)
      { s.levels ((s.orders oid).timeControl, (s.orders oid).side,
          (s.orders oid).tickAmount) with
        orderIds := removeSwap (s.levels ((s.orders oid).timeControl,
          (s.orders oid).side, (s.orders oid).tickAmount)).orderIds oid,
        totalAmount := (s.levels ((s.orders oid).timeControl,
          (s.orders oid).side, (s.orders oid).tickAmount)).totalAmount -
          ((s.orders oid).amount - (s.orders oid).filledAmount) })
    (hn : t.nextId = s.nextId) : Inv t := by
  by_cases hreal : (s.orders oid).id = oid ∧ 1 ≤ oid
  case neg =>
    have hph := hInv.ordPhantom oid hreal
    have hnq : ∀ k, oid ∉ (s.levels k).orderIds := by
      intro k hmem
      exact hreal ⟨(hInv.located k oid hmem).1, (hInv.located k oid hmem).2.1⟩
    have hrs : removeSwap (s.levels ((s.orders oid).timeControl,
        (s.orders oid).side, (s.orders oid).tickAmount)).orderIds oid =
        (s.levels ((s.orders oid).timeControl, (s.orders oid).side,
          (s.orders oid).tickAmount)).orderIds :=
      removeSwap_not_mem _ _ (hnq _)
    have hlv : t.levels = s.levels := by
      rw [hl]
      funext k
      by_cases hk : k = ((s.orders oid).timeControl, (s.orders oid).side,
          (s.orders oid).tickAmount)
      · rw [hk]
        simp [upd, hrs, hph.1, hph.2]
      · simp [upd, hk]
    exact inv_setStatus3_unqueued s t oid hInv hnq ho hlv hn
  case pos =>
    have hst1 : (s.orders oid).status ≤ 1 := by omega
    have hmem : oid ∈ (s.levels ((s.orders oid).timeControl,
        (s.orders oid).side, (s.orders oid).tickAmount)).orderIds :=
      hInv.openQueued oid hreal.2 hreal.1 hst1
    have hnd := hInv.nodup ((s.orders oid).timeControl, (s.orders oid).side,
      (s.orders oid).tickAmount)
    have hpermE := removeSwap_perm _ oid hmem
    have hoo : t.orders oid = { s.orders oid with status := 3 } := by
      rw [ho]
      simp [upd]
    have hoe : ∀ i, ¬i = oid → t.orders i = s.orders i := by
      intro i h1
      rw [ho]
      simp [upd, h1]
    have hqt : (t.levels ((s.orders oid).timeControl, (s.orders oid).side,
        (s.orders oid).tickAmount)).orderIds =
        removeSwap (s.levels ((s.orders oid).timeControl, (s.orders oid).side,
          (s.orders oid).tickAmount)).orderIds oid := by
      rw [hl]
      simp [upd]
    have htot : (t.levels ((s.orders oid).timeControl, (s.orders oid).side,
        (s.orders oid).tickAmount)).totalAmount =
        (s.levels ((s.orders oid).timeControl, (s.orders oid).side,
          (s.orders oid).tickAmount)).totalAmount -
        ((s.orders oid).amount - (s.orders oid).filledAmount) := by
      rw [hl]
      simp [upd]
    have hql : ∀ k, ¬k = ((s.orders oid).timeControl, (s.orders oid).side,
        (s.orders oid).tickAmount) → t.levels k = s.levels k := by
      intro k hk
      rw [hl]
      simp [upd, hk]
    have hmq : ∀ k i, i ∈ (t.levels k).orderIds →
        i ∈ (s.levels k).orderIds ∧ ¬i = oid := by
      intro k i hi
      by_cases hk : k = ((s.orders oid).timeControl, (s.orders oid).side,
          (s.orders oid).tickAmount)
      · rw [hk, hqt] at hi
        have h2 := hpermE.mem_iff.mp hi
        have h3 := (List.Nodup.mem_erase_iff hnd).mp h2
        rw [hk]
        exact ⟨h3.2, h3.1⟩
      · rw [hql k hk] at hi
        refine ⟨hi, ?_⟩
        intro hh
        exact hk (queued_unique s hInv k _ i hi (hh ▸ hmem))
    refine ⟨?_, ?_, ?_, ?_, ?_, ?_, ?_, ?_, ?_, ?_⟩
    · rw [hn]
      exact hInv.nextIdPos
    · intro k i hi
      have L := hInv.located k i (hmq k i hi).1
      rw [hoe i (hmq k i hi).2, hn]
      exact L
    · intro k
      by_cases hk : k = ((s.orders oid).timeControl, (s.orders oid).side,
          (s.orders oid).tickAmount)
      · rw [hk, hqt]
        exact hpermE.symm.nodup (hnd.erase oid)
      · rw [hql k hk]
        exact hInv.nodup k
    · intro i
      by_cases h1 : i = oid
      · rw [h1, hoo]
        exact hInv.fillLe _
      · rw [hoe i h1]
        exact hInv.fillLe i
    · intro i hst
      by_cases h1 : i = oid
      · rw [h1, hoo] at hst
        simp at hst
      · rw [hoe i h1] at hst ⊢
        exact hInv.filledStatus i hst
    · intro k i hi
      rw [hoe i (hmq k i hi).2]
      exact hInv.noCancelQueued k i (hmq k i hi).1
    · intro i
      by_cases h1 : i = oid
      · rw [h1, hoo]
      · rw [hoe i h1]
        exact hInv.statusLe i
    · intro i h1 h2 h3
      by_cases h4 : i = oid
      · rw [h4, hoo] at h3
        simp at h3
      · rw [hoe i h4] at h2 h3 ⊢
        have hm2 := hInv.openQueued i h1 h2 h3
        by_cases hk : ((s.orders i).timeControl, (s.orders i).side,
            (s.orders i).tickAmount) = ((s.orders oid).timeControl,
            (s.orders oid).side, (s.orders oid).tickAmount)
        · rw [hk] at hm2 ⊢
          rw [hqt]
          refine hpermE.mem_iff.mpr ?_
          exact (List.Nodup.mem_erase_iff hnd).mpr ⟨h4, hm2⟩
        · rw [hql _ hk]
          exact hm2
    · intro i hni
      by_cases h1 : i = oid
      · rw [h1, hoo] at hni
        refine absurd ?_ hni
        exact ⟨hreal.1, hreal.2⟩
      · rw [hoe i h1] at hni ⊢
        exact hInv.ordPhantom i hni
    · intro k
      by_cases hk : k = ((s.orders oid).timeControl, (s.orders oid).side,
          (s.orders oid).tickAmount)
      · have hc : contrib s.orders oid =
            (s.orders oid).amount - (s.orders oid).filledAmount := by
          unfold contrib
          rw [if_pos hst1]
        have e1 : levelNeed t k =
            ((removeSwap (s.levels ((s.orders oid).timeControl,
              (s.orders oid).side, (s.orders oid).tickAmount)).orderIds
              oid).map (contrib t.orders)).sum := by
          rw [levelNeed_eq, hk, hqt]
        have e2 : ((removeSwap (s.levels ((s.orders oid).timeControl,
            (s.orders oid).side, (s.orders oid).tickAmount)).orderIds
            oid).map (contrib t.orders)).sum =
            (((s.levels ((s.orders oid).timeControl, (s.orders oid).side,
              (s.orders oid).tickAmount)).orderIds.erase oid).map
              (contrib t.orders)).sum :=
          (hpermE.map _).sum_eq
        have e3 : (((s.levels ((s.orders oid).timeControl,
            (s.orders oid).side, (s.orders oid).tickAmount)).orderIds.erase
            oid).map (contrib t.orders)).sum =
            (((s.levels ((s.orders oid).timeControl, (s.orders oid).side,
              (s.orders oid).tickAmount)).orderIds.erase oid).map
              (contrib s.orders)).sum := by
          refine sum_map_congr _ _ _ ?_
          intro i hi
          have h5 := (List.Nodup.mem_erase_iff hnd).mp hi
          unfold contrib
          rw [hoe i h5.1]
        have e4 := sum_map_erase _ oid (contrib s.orders) hmem
        have hns := hInv.needLe ((s.orders oid).timeControl,
          (s.orders oid).side, (s.orders oid).tickAmount)
        rw [levelNeed_eq] at hns
        rw [e1, e2, e3, hk, htot]
        omega
      · have heqc : ∀ i ∈ (s.levels k).orderIds,
            contrib t.orders i = contrib s.orders i := by
          intro i hi
          have h5 : ¬i = oid := by
            intro hh
            exact hk (queued_unique s hInv k _ i hi (hh ▸ hmem))
          unfold contrib
          rw [hoe i h5]
        rw [levelNeed_eq, hql k hk, sum_map_congr _ _ _ heqc]
        exact hInv.needLe k

/-- placeOrder's insertion of a fresh order into its level keeps the
invariant. -/
theorem inv_insertOrder (s t : CState) (caller sd tc q ta : Nat)
    (hInv : Inv s)
    (ho : t.orders = upd s.orders s.nextId
      { id := s.nextId, player := caller, side := sd, amount := q,
        tickAmount := q, timeControl := tc, createdAt := s.time,
        filledAmount := 0, status := 0 })
    (hl : t.levels = upd s.levels (tc, sd, q)
      { tickAmount := ta,
        orderIds := (s.levels (tc, sd, q)).orderIds ++ [s.nextId],
        totalAmount := (s.levels (tc, sd, q)).totalAmount + q })
    (hn : t.nextId = s.nextId + 1) : Inv t := by
  have hfresh : ∀ k i, i ∈ (s.levels k).orderIds → ¬i = s.nextId := by
    intro k i hi hh
    exact absurd (hh ▸ (hInv.located k i hi).2.2.1) (lt_irrefl _)
  have hoo : t.orders s.nextId =
      { id := s.nextId, player := caller, side := sd, amount := q,
        tickAmount := q, timeControl := tc, createdAt := s.time,
        filledAmount := 0, status := 0 } := by
    rw [ho]
    simp [upd]
  have hoe : ∀ i, ¬i = s.nextId → t.orders i = s.orders i := by
    intro i h1
    rw [ho]
    simp [upd, h1]
  have hqt : (t.levels (tc, sd, q)).orderIds =
      (s.levels (tc, sd, q)).orderIds ++ [s.nextId] := by
    rw [hl]
    simp [upd]
  have htot : (t.levels (tc, sd, q)).totalAmount =
      (s.levels (tc, sd, q)).totalAmount + q := by
    rw [hl]
    simp [upd]
  have hql : ∀ k, ¬k = (tc, sd, q) → t.levels k = s.levels k := by
    intro k hk
    rw [hl]
    simp [upd, hk]
  refine ⟨?_, ?_, ?_, ?_, ?_, ?_, ?_, ?_, ?_, ?_⟩
  · rw [hn]
    exact le_trans hInv.nextIdPos (Nat.le_succ _)
  · intro k i hi
    by_cases hk : k = (tc, sd, q)
    · rw [hk, hqt] at hi
      rcases List.mem_append.mp hi with h | h
      · have L := hInv.located _ i h
        rw [hoe i (hfresh _ i h), hn, hk]
        exact ⟨L.1, L.2.1, Nat.lt_succ_of_lt L.2.2.1, L.2.2.2⟩
      · have h2 : i = s.nextId := by simpa using h
        rw [h2, hoo, hn, hk]
        exact ⟨rfl, hInv.nextIdPos, Nat.lt_succ_self _, rfl, rfl, rfl⟩
    · rw [hql k hk] at hi
      have L := hInv.located k i hi
      rw [hoe i (hfresh k i hi), hn]
      exact ⟨L.1, L.2.1, Nat.lt_succ_of_lt L.2.2.1, L.2.2.2⟩
  · intro k
    by_cases hk : k = (tc, sd, q)
    · rw [hk, hqt]
      have h3 : s.nextId ∉ (s.levels (tc, sd, q)).orderIds := by
        intro hmem
        exact hfresh _ _ hmem rfl
      simp [List.nodup_append]
      exact ⟨hInv.nodup _, h3⟩
    · rw [hql k hk]
      exact hInv.nodup k
  · intro i
    by_cases h1 : i = s.nextId
    · rw [h1, hoo]
      exact Nat.zero_le _
    · rw [hoe i h1]
      exact hInv.fillLe i
  · intro i hst
    by_cases h1 : i = s.nextId
    · rw [h1, hoo] at hst
      simp at hst
    · rw [hoe i h1] at hst ⊢
      exact hInv.filledStatus i hst
  · intro k i hi
    by_cases h1 : i = s.nextId
    · rw [h1, hoo]
      simp
    · rw [hoe i h1]
      by_cases hk : k = (tc, sd, q)
      · rw [hk, hqt] at hi
        rcases List.mem_append.mp hi with h | h
        · exact hInv.noCancelQueued _ i h
        · exact absurd (by simpa using h) h1
      · rw [hql k hk] at hi
        exact hInv.noCancelQueued k i hi
  · intro i
    by_cases h1 : i = s.nextId
    · rw [h1, hoo]
      exact Nat.zero_le _
    · rw [hoe i h1]
      exact hInv.statusLe i
  · intro i h1 h2 h3
    by_cases h4 : i = s.nextId
    · rw [h4, hoo]
      rw [hqt]
      simp
    · rw [hoe i h4] at h2 h3 ⊢
      have hm2 := hInv.openQueued i h1 h2 h3
      by_cases hk : ((s.orders i).timeControl, (s.orders i).side,
          (s.orders i).tickAmount) = (tc, sd, q)
      · rw [hk] at hm2 ⊢
        rw [hqt]
        exact List.mem_append_left _ hm2
      · rw [hql _ hk]
        exact hm2
  · intro i hni
    by_cases h1 : i = s.nextId
    · rw [h1, hoo] at hni
      refine absurd ?_ hni
      exact ⟨rfl, hInv.nextIdPos⟩
    · rw [hoe i h1] at hni ⊢
      exact hInv.ordPhantom i hni
  · intro k
    by_cases hk : k = (tc, sd, q)
    · have e1 : levelNeed t k =
          (((s.levels (tc, sd, q)).orderIds.map (contrib t.orders)).sum +
            contrib t.orders s.nextId) := by
        rw [levelNeed_eq, hk, hqt]
        simp
      have e2 : ((s.levels (tc, sd, q)).orderIds.map
          (contrib t.orders)).sum =
          ((s.levels (tc, sd, q)).orderIds.map (contrib s.orders)).sum := by
        refine sum_map_congr _ _ _ ?_
        intro i hi
        unfold contrib
        rw [hoe i (hfresh _ i hi)]
      have e3 : contrib t.orders s.nextId = q := by
        unfold contrib
        rw [hoo]
        simp
      have hns := hInv.needLe (tc, sd, q)
      rw [levelNeed_eq] at hns
      rw [e1, e2, e3, hk, htot]
      omega
    · have heqc : ∀ i ∈ (s.levels k).orderIds,
          contrib t.orders i = contrib s.orders i := by
        intro i hi
        unfold contrib
        rw [hoe i (hfresh k i hi)]
      rw [levelNeed_eq, hql k hk, sum_map_congr _ _ _ heqc]
      exact hInv.needLe k

/-- resolveBets never touches the orderbook stores or the id counter. -/
theorem resolveBets_ob (s : CState) (gid res : Nat) (t : CState)
    (h : resolveBets s gid res = .ok t) :
    t.orders = s.orders ∧ t.levels = s.levels ∧ t.nextId = s.nextId := by
  unfold resolveBets at h
  dsimp only at h
  split_ifs at h
  all_goals
    first
    | (injection h with hh
       subst hh
       exact ⟨rfl, rfl, rfl⟩)
    | exact absurd h (by simp)

set_option maxHeartbeats 1600000 in
/-- Every external call preserves the orderbook invariant. -/
theorem inv_run (op : Op) (s : CState) (hInv : Inv s) : Inv (run op s) := by
  cases op with
  | createGame c b tc tier =>
    simp only [run, step, createGame]
    split_ifs <;> (try dsimp only) <;>
      first
      | exact hInv
      | (refine inv_mono _ _ ?_ ?_ ?_ hInv <;>
          first | rfl | exact Nat.le_succ _)
  | startGame c gid =>
    simp only [run, step, startGame]
    split_ifs <;> (try dsimp only) <;>
      first
      | exact hInv
      | (refine inv_mono _ _ ?_ ?_ ?_ hInv <;>
          first | rfl | exact Nat.le_refl _)
  | makeMove c gid mv =>
    simp only [run, step, makeMove]
    split_ifs <;> (try dsimp only) <;>
      first
      | exact hInv
      | (refine inv_mono _ _ ?_ ?_ ?_ hInv <;>
          first | rfl | exact Nat.le_refl _)
  | submitGameResult c gid res =>
    simp only [run, step, submitGameResult]
    split_ifs <;> (try dsimp only) <;>
      first
      | exact hInv
      | (refine inv_mono _ _ ?_ ?_ ?_ hInv <;>
          first | rfl | exact Nat.le_refl _)
      | (split
         · rename_i t heq
           have hf := resolveBets_ob _ _ _ _ heq
           refine inv_mono _ _ ?_ ?_ ?_ hInv
           · exact hf.1
           · exact hf.2.1
           · exact le_of_eq hf.2.2.symm
         · exact hInv)
  | resolveDisputedGame c gid res =>
    simp only [run, step, resolveDisputedGame]
    split_ifs <;> (try dsimp only) <;>
      first
      | exact hInv
      | (refine inv_mono _ _ ?_ ?_ ?_ hInv <;>
          first | rfl | exact Nat.le_refl _)
      | (split
         · rename_i t heq
           have hf := resolveBets_ob _ _ _ _ heq
           refine inv_mono _ _ ?_ ?_ ?_ hInv
           · exact hf.1
           · exact hf.2.1
           · exact le_of_eq hf.2.2.symm
         · exact hInv)
  | placeBet c gid amt =>
    simp only [run, step, placeBet]
    split_ifs <;> (try dsimp only) <;>
      first
      | exact hInv
      | (refine inv_mono _ _ ?_ ?_ ?_ hInv <;>
          first
          | rfl
          | exact Nat.le_refl _
          | exact (indexPlayerGame_proj _ _ _).2.2.2.2.1
          | exact (indexPlayerGame_proj _ _ _).2.2.2.2.2.1
          | (dsimp only
             rw [(indexPlayerGame_proj _ _ _).2.2.2.2.2.2]
             try exact Nat.le_refl _))
  | claimPayout c ok2 =>
    simp only [run, step, claimPayout, claimZeroedState]
    split_ifs <;> (try dsimp only) <;>
      first
      | exact hInv
      | (refine inv_mono _ _ ?_ ?_ ?_ hInv <;>
          first | rfl | exact Nat.le_refl _)
  | withdrawTokenFees c =>
    simp only [run, step, withdrawTokenFees]
    split_ifs <;> (try dsimp only) <;>
      first
      | exact hInv
      | (refine inv_mono _ _ ?_ ?_ ?_ hInv <;>
          first | rfl | exact Nat.le_refl _)
  | placeOrder c sd tc amt =>
    simp only [run, step, placeOrder]
    split_ifs <;> (try dsimp only) <;>
      first
      | exact hInv
      | exact inv_attemptMatch _ s.nextId
          (inv_insertOrder s _ c sd tc _ _ hInv rfl rfl rfl)
          (by simp [upd]) hInv.nextIdPos
  | cancelOrder c oid =>
    simp only [run, step, cancelOrder]
    split_ifs with hp hc <;> (try dsimp only) <;>
      first
      | exact hInv
      | exact inv_cancel s _ oid hInv hc rfl rfl rfl
  | pauseGame c gid =>
    simp only [run, step, pauseGame]
    split_ifs <;> (try dsimp only) <;>
      first
      | exact hInv
      | (refine inv_mono _ _ ?_ ?_ ?_ hInv <;>
          first | rfl | exact Nat.le_refl _)
      | (split
         · rename_i t heq
           split at heq
           · exact absurd heq (by simp)
           · rename_i s2 heq2
             injection heq with hh
             subst hh
             have hf := resolveBets_ob _ _ _ _ heq2
             refine inv_mono _ _ ?_ ?_ ?_ hInv
             · exact hf.1
             · exact hf.2.1
             · exact le_of_eq hf.2.2.symm
         · exact hInv)
  | setHouseFeePercentage c v =>
    simp only [run, step, setHouseFeePercentage]
    split_ifs <;> (try dsimp only) <;>
      first
      | exact hInv
      | (refine inv_mono _ _ ?_ ?_ ?_ hInv <;>
          first | rfl | exact Nat.le_refl _)
  | setBettingTierAmounts c lo md =>
    simp only [run, step, setBettingTierAmounts]
    split_ifs <;> (try dsimp only) <;>
      first
      | exact hInv
      | (refine inv_mono _ _ ?_ ?_ ?_ hInv <;>
          first | rfl | exact Nat.le_refl _)
  | pause c =>
    simp only [run, step, pause]
    split_ifs <;> (try dsimp only) <;>
      first
      | exact hInv
      | (refine inv_mono _ _ ?_ ?_ ?_ hInv <;>
          first | rfl | exact Nat.le_refl _)
  | unpause c =>
    simp only [run, step, unpause]
    split_ifs <;> (try dsimp only) <;>
      first
      | exact hInv
      | (refine inv_mono _ _ ?_ ?_ ?_ hInv <;>
          first | rfl | exact Nat.le_refl _)

/-- The orderbook invariant holds along any call sequence. -/
theorem inv_exec (ops : List Op) : ∀ s, Inv s → Inv (exec ops s) := by
  induction ops with
  | nil => exact fun s h => h
  | cons op rest ih => exact fun s h => ih (run op s) (inv_run op s h)

/-- C6 (amended): on every reachable state, each level's aggregate
`totalAmount` is an upper bound for (not necessarily equal to) the sum of
(quantized − filled) over the non-terminal orders queued at the level. -/
theorem level_aggregate_ge (s : CState) (k : Nat × Nat × Nat)
    (h : Reachable s) : levelNeed s k ≤ (s.levels k).totalAmount := by
  obtain ⟨o, t, ops, rfl⟩ := h
  exact (inv_exec ops _ (inv_genesis o t)).needLe k

/-- C6 witness: the self-match scenario state is reachable and satisfies the
bound at the black level of tick 10 USDC. -/
theorem level_aggregate_ge_witness :
    Reachable selfMatchState ∧
    levelNeed selfMatchState (5, 1, 10000000) ≤
      (selfMatchState.levels (5, 1, 10000000)).totalAmount :=
  ⟨⟨99, 1000, selfMatchOps, rfl⟩,
   level_aggregate_ge selfMatchState (5, 1, 10000000)
     ⟨99, 1000, selfMatchOps, rfl⟩⟩

end ChessBet
